import Mathlib

/-!
Verification of the Smartech integration engine: a shallow embedding of the
patcher (`packages/engine/src/patcher.ts` and `packages/engine/dist/patcher.js`),
the planner (`packages/engine/src/planner.ts`), the verify-retry loop of the
`/api/apply` handler (`apps/server/src/index.ts`) and the text mutators of the
base rule module (`packages/engine/dist/rules/base.js`).

File contents (strings, patches) are modelled as `String` at the patcher level
and as `List Char` inside the text mutators.  The external `diff` npm library
(its `applyPatch` and `createTwoFilesPatch`) is not part of this repository; it
is abstracted as an explicit function argument everywhere it is used, so every
theorem quantifies over its behaviour.
-/

namespace Smartech

/-- A proposed edit, mirroring the `Change` type of `packages/shared/src/index.ts`
(with the `manualSnippet` field used by `dist/rules/base.js`).  `confidence` is
an exact rational standing for the JS float literal. -/
structure Change where
  id : String
  title : String := ""
  filePath : String
  kind : String := "insert"
  patch : String
  summary : String := ""
  confidence : ℚ := 0
  module : Option String := some "base"
  originalContent : Option String := none
  newContent : Option String := none
  manualSnippet : Option String := none
deriving Repr, DecidableEq

/-- One per-change outcome of the patcher (`ApplyResult` in `patcher.ts`). -/
structure ApplyResult where
  changeId : String
  applied : Bool
  message : String
deriving Repr, DecidableEq

/-- A per-file buffer of the patcher's `fileCache`: pristine `original` and the
working `current` content. -/
structure FileBuf where
  original : String
  current : String
deriving Repr, DecidableEq

/-- The patcher's `fileCache`, a JS `Map` kept as an insertion-ordered
association list (JS `Map.set` on an existing key updates in place). -/
abbrev FileCache := List (String × FileBuf)

/-- `Map.get`. -/
def cacheGet (cache : FileCache) (k : String) : Option FileBuf :=
  match cache with
  | [] => none
  | (k', v) :: rest => if k' = k then some v else cacheGet rest k

/-- `Map.set`: update in place when the key exists, else append. -/
def cacheSet (k : String) (v : FileBuf) (cache : FileCache) : FileCache :=
  match cache with
  | [] => [(k, v)]
  | (k', v') :: rest => if k' = k then (k, v) :: rest else (k', v') :: cacheSet k v rest

/-- JS truthiness of an optional string field: `undefined` and `""` are falsy. -/
def strTruthy : Option String → Bool
  | none => false
  | some s => !(s == "")

/-- The pristine `original` resolved for a change's file: the cached original
when present, else the loaded file content (`loadFileOrEmpty`, abstracted as
`fs`, which returns `""` for a missing file). -/
def bufOriginal (fs : String → String) (cache : FileCache) (path : String) : String :=
  match cacheGet cache path with
  | some b => b.original
  | none => fs path

/-- The working `current` buffer resolved for a change's file. -/
def bufCurrent (fs : String → String) (cache : FileCache) (path : String) : String :=
  match cacheGet cache path with
  | some b => b.current
  | none => bufOriginal fs cache path

/-- The body of the `for (const change of changes)` loop of `applyChanges` for
one change: the per-change `ApplyResult` and the updated `fileCache`.
`ap current patch fuzz` abstracts `applyPatch(current, patch, { fuzzFactor:
fuzz })` of the external `diff` library (`none` models its `false` return). -/
def applyStep (ap : String → String → Nat → Option String) (fuzz : Nat)
    (fs : String → String) (dryRun : Bool) (change : Change) (cache : FileCache) :
    ApplyResult × FileCache :=
  if dryRun then
    (⟨change.id, false, "Dry run: no changes applied."⟩, cache)
  else if change.patch = "" then
    (⟨change.id, false, "No patch available for this change."⟩, cache)
  else
    let original := bufOriginal fs cache change.filePath
    let current := bufCurrent fs cache change.filePath
    match ap current change.patch fuzz with
    | none =>
      if strTruthy change.newContent ∧ current = original then
        (⟨change.id, true, "Applied change with fallback content."⟩,
          cacheSet change.filePath ⟨original, change.newContent.getD ""⟩ cache)
      else
        (⟨change.id, false, "Failed to apply patch."⟩, cache)
    | some patched =>
      (⟨change.id, true, "Applied change."⟩, cacheSet change.filePath ⟨original, patched⟩ cache)

/-- The `for (const change of changes)` loop of `applyChanges`, threading the
`fileCache` through `applyStep`. -/
def applyLoop (ap : String → String → Nat → Option String) (fuzz : Nat)
    (fs : String → String) (dryRun : Bool) :
    List Change → FileCache → List ApplyResult × FileCache
  | [], cache => ([], cache)
  | change :: rest, cache =>
    let s := applyStep ap fuzz fs dryRun change cache
    let r := applyLoop ap fuzz fs dryRun rest s.2
    (s.1 :: r.1, r.2)

/-- `applyChanges(changes, dryRun)`: per-change results plus the final write
set — after the loop, each `fileCache` entry's `current` buffer is written to
its path (one `fs.writeFile` per cache entry). -/
def applyChanges (ap : String → String → Nat → Option String) (fuzz : Nat)
    (fs : String → String) (changes : List Change) (dryRun : Bool) :
    List ApplyResult × List (String × String) :=
  let r := applyLoop ap fuzz fs dryRun changes []
  (r.1, r.2.map fun e => (e.1, e.2.current))

/-- The fuzz factor passed to `applyPatch` by `packages/engine/src/patcher.ts`
line 40: `{ fuzzFactor: 5 }`. -/
def tsFuzzFactor : Nat := 5

/-- The fuzz factor passed to `applyPatch` by `packages/engine/dist/patcher.js`
line 30: `{ fuzzFactor: 0 }`, under the comment "Keep patching strict to avoid
fuzzy hunk matches corrupting structured files". -/
def distFuzzFactor : Nat := 0

/-- `applyChanges` as compiled from `packages/engine/src/patcher.ts`. -/
def applyChangesTs (ap : String → String → Nat → Option String)
    (fs : String → String) (changes : List Change) (dryRun : Bool) :
    List ApplyResult × List (String × String) :=
  applyChanges ap tsFuzzFactor fs changes dryRun

/-- `applyChanges` of `packages/engine/dist/patcher.js` (the artifact imported
through `@smartech/engine`). -/
def applyChangesDist (ap : String → String → Nat → Option String)
    (fs : String → String) (changes : List Change) (dryRun : Bool) :
    List ApplyResult × List (String × String) :=
  applyChanges ap distFuzzFactor fs changes dryRun

/-! ### Planner (`packages/engine/src/planner.ts`)

Each rule module performs its own file-system reads, so a module's output for
the current state is abstracted as an opaque change list. -/

/-- The outputs of the five rule modules dispatched by `planIntegration` for
the current file-system state. -/
structure PlanOracles where
  base : List Change
  flutterBase : List Change
  push : List Change
  flutterPush : List Change
  px : List Change

/-- The request options used by the planner: `parts` and `appPlatform`
(`IntegrationOptions` of `packages/shared`). -/
structure IntegrationOptions where
  rootPath : String := ""
  parts : List String
  appPlatform : Option String := none

/-- The change list assembled by `planIntegration`: base rules (flutter or
react-native variant) when `parts` includes `base`, push rules likewise, and px
rules only when `appPlatform !== "flutter"` and `parts` includes `px`
(`planner.ts` lines 14-57). -/
def planIntegration (options : IntegrationOptions) (o : PlanOracles) : List Change :=
  (if options.parts.contains "base" then
    (if options.appPlatform = some "flutter" then o.flutterBase else o.base)
   else [])
  ++ (if options.parts.contains "push" then
    (if options.appPlatform = some "flutter" then o.flutterPush else o.push)
   else [])
  ++ (if options.appPlatform ≠ some "flutter" ∧ options.parts.contains "px" then o.px
   else [])

/-! ### Verify-retry loop (`apps/server/src/index.ts`, `/api/apply` handler)

Every `planIntegration` call re-reads the file system, which the interleaved
`applyChanges` calls mutate, so the sequence of plans is abstracted as
`planAt : Nat → List Change`, indexed by how many `planIntegration` calls have
been issued so far inside the verify phase. -/

/-- `selectedIds ? plan.changes.filter(c => selectedIds.includes(c.id)) :
plan.changes`. -/
def filterSelected (sel : Option (List String)) (cs : List Change) : List Change :=
  match sel with
  | some ids => cs.filter fun c => ids.contains c.id
  | none => cs

/-- The retry budget of the `/api/apply` handler: `const maxAttempts = 2`. -/
def maxAttempts : Nat := 2

/-- The `for (let attempt = 0; attempt < maxAttempts; ...)` loop: each
iteration issues one `planIntegration` call, breaks when the filtered list is
empty, else issues one retry `applyChanges` sub-batch (recorded in the
accumulator).  Returns the retry sub-batches and the next plan-call index. -/
def verifyLoop (planAt : Nat → List Change) (sel : Option (List String)) :
    Nat → Nat → List (List Change) → List (List Change) × Nat
  | 0, idx, acc => (acc, idx)
  | fuel + 1, idx, acc =>
    let filtered := filterSelected sel (planAt idx)
    if filtered.isEmpty then (acc, idx + 1)
    else verifyLoop planAt sel fuel (idx + 1) (acc ++ [filtered])

/-- The verify phase of the `/api/apply` handler after the initial
`applyChanges` call: the bounded loop above followed by one final
`planIntegration` whose filtered ids become `remaining`. -/
def apiApplyVerify (planAt : Nat → List Change) (sel : Option (List String)) :
    List (List Change) × List String :=
  let r := verifyLoop planAt sel maxAttempts 0 []
  (r.1, (filterSelected sel (planAt r.2)).map Change.id)

/-! ### Concrete instances used by witnesses -/

/-- A file system on which every read yields the empty string. -/
def fs0 : String → String := fun _ => ""

/-- A patch engine that rejects every patch. -/
def apNone : String → String → Nat → Option String := fun _ _ _ => none

/-- A patch engine modelling a patch whose context lines have drifted from the
buffer by a few lines: `applyPatch` succeeds at fuzz factor 5 but fails at
fuzz factor 0. -/
def apDrift : String → String → Nat → Option String :=
  fun _ _ fuzz => if 5 ≤ fuzz then some "patched-content" else none

/-- A change carrying a patch whose context no longer exactly matches the
on-disk manifest. -/
def chDrift : Change :=
  { id := "drift", filePath := "/app/src/main/AndroidManifest.xml",
    patch := "@@ -1,3 +1,3 @@", newContent := none }

/-- A change whose patch fails and which has no fallback content. -/
def chFail : Change :=
  { id := "c-fail", filePath := "/a", patch := "@@ -1 +1 @@", newContent := none }

/-- A change whose patch fails but which carries whole-file fallback
content. -/
def chFallback : Change :=
  { id := "drift", filePath := "/app/src/main/AndroidManifest.xml",
    patch := "@@ -1,3 +1,3 @@", newContent := some "whole-file" }

/-- A later change in the same batch, targeting another file. -/
def chNext : Change :=
  { id := "c-next", filePath := "/b", patch := "p" }

/-! ### A JavaScript-regex fragment

The regex literals of `dist/rules/base.js` use only literal runs, the classes
`\s`, `\w`, `.`, `[^c]` and the quantifiers `*`, `+`, `?` (no alternation, no
capture-dependent behaviour), so they are embedded as token lists matched by a
leftmost, greedy, backtracking matcher — the semantics of `RegExp.test` /
`String.replace` (first match) for this fragment. -/

/-- Source text inside the mutators. -/
abbrev Text := List Char

/-- JS `\s` (the whitespace characters occurring in this code base). -/
def isWsChar (c : Char) : Bool :=
  c = ' ' || c = '\t' || c = '\n' || c = '\r' || c = '\x0b' || c = '\x0c'
  || c = Char.ofNat 0xa0 || c = Char.ofNat 0x1680
  || (Char.ofNat 0x2000 ≤ c && c ≤ Char.ofNat 0x200a)
  || c = Char.ofNat 0x2028 || c = Char.ofNat 0x2029
  || c = Char.ofNat 0x202f || c = Char.ofNat 0x205f || c = Char.ofNat 0x3000
  || c = Char.ofNat 0xfeff

/-- JS `\w`. -/
def isWordChar (c : Char) : Bool :=
  ('a' ≤ c && c ≤ 'z') || ('A' ≤ c && c ≤ 'Z') || ('0' ≤ c && c ≤ '9') || c = '_'

/-- JS `.` without the `s` flag: anything but a line terminator. -/
def isDotChar (c : Char) : Bool :=
  !(c = '\n' || c = '\r' || c = Char.ofNat 0x2028 || c = Char.ofNat 0x2029)

/-- One token of a regex: a literal run, or a single-character class under
`*`, `+` or `?`. -/
inductive RTok where
  | lit : Text → RTok
  | star : (Char → Bool) → RTok
  | plus : (Char → Bool) → RTok
  | opt : (Char → Bool) → RTok

/-- The literal token for a string. -/
def litTok (s : String) : RTok := .lit s.data

/-- Greedy `p*` followed by the continuation `k`: consume as many
`p`-characters as possible, backtracking one at a time when the continuation
fails. -/
def starRun (p : Char → Bool) (k : Text → Option (Text × Text)) :
    Text → Option (Text × Text)
  | [] => k []
  | c :: cs' =>
    if p c then
      match starRun p k cs' with
      | some (m, r) => some (c :: m, r)
      | none => k (c :: cs')
    else k (c :: cs')

/-- Match a token list against a prefix of `cs`, greedily with backtracking:
returns the consumed prefix and the remainder. -/
def matchToks : List RTok → Text → Option (Text × Text)
  | [], cs => some ([], cs)
  | .lit l :: rest, cs =>
    if l.isPrefixOf cs then
      match matchToks rest (cs.drop l.length) with
      | some (m, r) => some (l ++ m, r)
      | none => none
    else none
  | .opt p :: rest, cs =>
    match cs with
    | c :: cs' =>
      if p c then
        match matchToks rest cs' with
        | some (m, r) => some (c :: m, r)
        | none => matchToks rest cs
      else matchToks rest cs
    | [] => matchToks rest []
  | .star p :: rest, cs => starRun p (matchToks rest) cs
  | .plus p :: rest, cs =>
    match cs with
    | c :: cs' =>
      if p c then
        match starRun p (matchToks rest) cs' with
        | some (m, r) => some (c :: m, r)
        | none => none
      else none
    | [] => none

/-- The star of `p` followed by the remaining tokens `rest`. -/
def matchStar (p : Char → Bool) (rest : List RTok) (cs : Text) :
    Option (Text × Text) :=
  starRun p (matchToks rest) cs

/-- Scan left to right for the first position where the tokens match;
`pre` accumulates the scanned prefix in reverse. -/
def firstMatchAux (toks : List RTok) : Text → Text → Option (Text × Text × Text)
  | pre, [] =>
    match matchToks toks [] with
    | some (m, r) => some (pre.reverse, m, r)
    | none => none
  | pre, c :: cs' =>
    match matchToks toks (c :: cs') with
    | some (m, r) => some (pre.reverse, m, r)
    | none => firstMatchAux toks (c :: pre) cs'

/-- The first (leftmost) match of the tokens in `cs`: the text before the
match, the matched text, and the text after it. -/
def firstMatch (toks : List RTok) (cs : Text) : Option (Text × Text × Text) :=
  firstMatchAux toks [] cs

/-- JS `regex.test(s)` for this fragment. -/
def rtest (toks : List RTok) (cs : Text) : Bool :=
  (firstMatch toks cs).isSome

/-- JS `s.replace(regex, f)` for a non-global regex: replace the first match
(the replacer receives the matched text); the string is unchanged when there
is no match. -/
def replaceFirst (toks : List RTok) (repl : Text → Text) (cs : Text) : Text :=
  match firstMatch toks cs with
  | some (pre, m, post) => pre ++ repl m ++ post
  | none => cs

/-- JS `GetSubstitution` for a *string* replacement and a regex with no
capture groups: `$$` yields `$`, `$&` the matched text, a backtick-`$` the
text before the match, `$'` the text after it; any other `$`-sequence
(including `$n`, which refers to a capture group this regex does not have)
is kept literally. -/
def jsSub (pre m post : Text) : Text → Text
  | [] => []
  | c :: rest =>
    if c = '$' then
      match rest with
      | [] => ['$']
      | d :: rest2 =>
        if d = '$' then '$' :: jsSub pre m post rest2
        else if d = '&' then m ++ jsSub pre m post rest2
        else if d = Char.ofNat 96 then pre ++ jsSub pre m post rest2
        else if d = '\'' then post ++ jsSub pre m post rest2
        else '$' :: d :: jsSub pre m post rest2
    else c :: jsSub pre m post rest

/-- JS `s.replace(regex, str)` for a non-global regex and a *string*
replacement: replace the first match with the `$`-substituted replacement
string; the string is unchanged when there is no match. -/
def replaceFirstStr (toks : List RTok) (repl : Text) (cs : Text) : Text :=
  match firstMatch toks cs with
  | some (pre, m, post) => pre ++ jsSub pre m post repl ++ post
  | none => cs

/-- The language of one token: which texts it can consume. -/
def TokMatches : RTok → Text → Prop
  | .lit l, w => w = l
  | .star p, w => ∀ c ∈ w, p c = true
  | .plus p, w => w ≠ [] ∧ ∀ c ∈ w, p c = true
  | .opt p, w => w = [] ∨ ∃ c, w = [c] ∧ p c = true

/-- The language of a token list: a concatenation of per-token pieces. -/
def ToksMatch : List RTok → Text → Prop
  | [], w => w = []
  | t :: ts, w => ∃ w1 w2, w = w1 ++ w2 ∧ TokMatches t w1 ∧ ToksMatch ts w2

/-! ### Text mutators of the base rule module (`dist/rules/base.js`) -/

/-- `SMARTECH_IMPORT`. -/
def SMARTECH_IMPORT : String := "com.netcore.android.Smartech"

/-- `SMARTECH_BASE_PLUGIN_IMPORT`. -/
def SMARTECH_BASE_PLUGIN_IMPORT : String := "com.smartechbasereactnative.SmartechBasePlugin"

/-- `SMARTECH_WEAKREF_IMPORT`. -/
def SMARTECH_WEAKREF_IMPORT : String := "java.lang.ref.WeakReference"

/-- `SMARTECH_INIT_LINES` (Java). -/
def SMARTECH_INIT_LINES : List Text :=
  [ "Smartech.getInstance(WeakReference(applicationContext)).initializeSdk(this);".data,
    "// Add the below line for debugging logs".data,
    "Smartech.getInstance(WeakReference(applicationContext)).setDebugLevel(9);".data,
    "// Add the below line to track app install and update by smartech".data,
    "Smartech.getInstance(WeakReference(applicationContext)).trackAppInstallUpdateBySmartech();".data,
    "SmartechBasePlugin smartechBasePlugin = SmartechBasePlugin.getInstance();".data,
    "smartechBasePlugin.init(this);".data ]

/-- `/Smartech\.getInstance\(.*\)\.initializeSdk\(/`. -/
def hasInitializeRe : List RTok :=
  [litTok "Smartech.getInstance(", .star isDotChar, litTok ").initializeSdk("]

/-- `/Smartech\.getInstance\(.*\)\.setDebugLevel\(/`. -/
def hasDebugRe : List RTok :=
  [litTok "Smartech.getInstance(", .star isDotChar, litTok ").setDebugLevel("]

/-- `/Smartech\.getInstance\(.*\)\.trackAppInstallUpdateBySmartech\(/`. -/
def hasTrackRe : List RTok :=
  [litTok "Smartech.getInstance(", .star isDotChar, litTok ").trackAppInstallUpdateBySmartech("]

/-- `/SmartechBasePlugin\.getInstance\(/`. -/
def hasPluginGetRe : List RTok := [litTok "SmartechBasePlugin.getInstance("]

/-- `/smartechBasePlugin\.init\(/`. -/
def hasPluginInitRe : List RTok := [litTok "smartechBasePlugin.init("]

/-- JS `String.includes`: `needle` occurs as a contiguous run of `hay`. -/
def textIncludes (needle : Text) : Text → Bool
  | [] => needle.isPrefixOf []
  | c :: rest => needle.isPrefixOf (c :: rest) || textIncludes needle rest

/-- JS `String.trim`. -/
def trimText (s : Text) : Text :=
  ((s.dropWhile isWsChar).reverse.dropWhile isWsChar).reverse

/-- The filter of `dedupeLines`, threading the `seen` set of trimmed keys. -/
def dedupeLinesAux (seen : List Text) : List Text → List Text
  | [] => []
  | l :: ls =>
    let key := trimText l
    if seen.contains key then dedupeLinesAux seen ls
    else l :: dedupeLinesAux (key :: seen) ls

/-- `dedupeLines`: keep the first occurrence of each trimmed line. -/
def dedupeLines (lines : List Text) : List Text := dedupeLinesAux [] lines

/-- `getMissingJavaInitLines`: which of the Smartech init lines the detection
regexes report as absent, in push order, deduplicated. -/
def getMissingJavaInitLines (source : Text) : List Text :=
  let hasInitialize := rtest hasInitializeRe source
  let hasDebug := rtest hasDebugRe source
  let hasTrack := rtest hasTrackRe source
  let hasPluginGet := rtest hasPluginGetRe source
  let hasPluginInit := rtest hasPluginInitRe source
  let hasPluginBlock := hasPluginGet || hasPluginInit
  let missing : List Text :=
    (if !hasInitialize then [SMARTECH_INIT_LINES.getD 0 []] else [])
    ++ (if !hasDebug then [SMARTECH_INIT_LINES.getD 1 [], SMARTECH_INIT_LINES.getD 2 []] else [])
    ++ (if !hasTrack then
          [SMARTECH_INIT_LINES.getD 3 [], SMARTECH_INIT_LINES.getD 4 [],
           SMARTECH_INIT_LINES.getD 5 []]
        else [])
  let missing :=
    if !hasPluginBlock then
      let m1 := missing ++
        (if !(missing.contains (SMARTECH_INIT_LINES.getD 4 [])) then
          [SMARTECH_INIT_LINES.getD 4 []] else [])
      m1 ++
        (if !(m1.contains (SMARTECH_INIT_LINES.getD 5 [])) then
          [SMARTECH_INIT_LINES.getD 5 []] else [])
    else missing
  dedupeLines missing

/-- `/(package\s+[^;]+;\s*)/m` — the `m` flag is irrelevant (no anchors). -/
def packageRe : List RTok :=
  [litTok "package", .plus isWsChar, .plus (fun c => c != ';'), litTok ";", .star isWsChar]

/-- One iteration of `ensureJavaImports`: skip when the rendered import line
already occurs, else insert it after the package line (`$1\nimport X;\n`); a
source without a package match is left unchanged. -/
def ensureJavaImport (source : Text) (imp : String) : Text :=
  let line := "import ".data ++ imp.data ++ [';']
  if textIncludes line source then source
  else replaceFirst packageRe (fun m => m ++ '\n' :: (line ++ ['\n'])) source

/-- `ensureJavaImports`. -/
def ensureJavaImports (source : Text) (imports : List String) : Text :=
  imports.foldl ensureJavaImport source

/-- The import list passed by `injectJavaInit`. -/
def javaInitImports : List String :=
  [SMARTECH_WEAKREF_IMPORT, SMARTECH_IMPORT, SMARTECH_BASE_PLUGIN_IMPORT,
   "android.content.Context"]

/-- `/void\s+onCreate\s*\(/`. -/
def voidOnCreateRe : List RTok :=
  [litTok "void", .plus isWsChar, litTok "onCreate", .star isWsChar, litTok "("]

/-- `/super\.onCreate\s*\(\s*\)\s*;?/`. -/
def superOnCreateJavaRe : List RTok :=
  [litTok "super.onCreate", .star isWsChar, litTok "(", .star isWsChar, litTok ")",
   .star isWsChar, .opt (fun c => c == ';')]

/-- `/class\s+\w+\s+extends\s+\w+\s*\{/`. -/
def classExtendsRe : List RTok :=
  [litTok "class", .plus isWsChar, .plus isWordChar, .plus isWsChar, litTok "extends",
   .plus isWsChar, .plus isWordChar, .star isWsChar, litTok "\x7b"]

/-- `missingLines.join("\n        ")`. -/
def joinIndented (lines : List Text) : Text :=
  (lines.intersperse "\n        ".data).flatten

/-- `injectJavaInit`: ensure the imports, then insert the missing init lines
after the first `super.onCreate()` when an `onCreate` exists, else synthesize
an `onCreate` override after the class header. -/
def injectJavaInit (source : Text) : Text :=
  let updated := ensureJavaImports source javaInitImports
  let missingLines := getMissingJavaInitLines updated
  if missingLines.isEmpty then updated
  else if rtest voidOnCreateRe updated then
    replaceFirst superOnCreateJavaRe
      (fun m => m ++ "\n        ".data ++ joinIndented missingLines) updated
  else
    replaceFirst classExtendsRe
      (fun m => m ++
        "\n\n    @Override\n    public void onCreate() \x7b\n        super.onCreate();\n        ".data
        ++ joinIndented missingLines ++ "\n    \x7d\n".data) updated

/-- `/SMARTECH_BASE_SDK_VERSION\s*=/` (the detection test of
`ensureGradleProperty`). -/
def gradleKeyTestRe : List RTok :=
  [litTok "SMARTECH_BASE_SDK_VERSION", .star isWsChar, litTok "="]

/-- `/SMARTECH_BASE_SDK_VERSION\s*=\s*[^\n]+/` (the replacement pattern). -/
def gradleKeyValueRe : List RTok :=
  [litTok "SMARTECH_BASE_SDK_VERSION", .star isWsChar, litTok "=", .star isWsChar,
   .plus (fun c => c != '\n')]

/-- JS `String.trimEnd`. -/
def trimEndText (s : Text) : Text := (s.reverse.dropWhile isWsChar).reverse

/-- The `SMARTECH_BASE_SDK_VERSION` replace/append step of
`ensureGradleProperty`: replace the first `KEY\s*=\s*[^\n]+` with the *string*
`` `SMARTECH_BASE_SDK_VERSION=${version}` `` (subject to JS `$`-substitution)
when the test matches, else append `\nKEY=version\n` to the trimmed file. -/
def gradleVersionStep (version : Text) (content : Text) : Text :=
  if rtest gradleKeyTestRe content then
    replaceFirstStr gradleKeyValueRe
      ("SMARTECH_BASE_SDK_VERSION=".data ++ version) content
  else
    trimEndText content ++ '\n' :: ("SMARTECH_BASE_SDK_VERSION=".data ++ version) ++ ['\n']

/-- `ensureGradleProperty` (rule level): `none` when the file is missing or
the step changes nothing, else the `Change` it builds (`buildChange` computes
`patch` through `createUnifiedDiff` of the external `diff` library, abstracted
as `mkPatch`). -/
def ensureGradleProperty (mkPatch : String → String → String → String)
    (filePath : String) (fileExists : Bool) (content : Text) (version : Text) :
    Option Change :=
  if !fileExists then none
  else
    let newContent := gradleVersionStep version content
    if newContent = content then none
    else some
      { id := "android-gradle-properties-smartech",
        title := "Add Smartech SDK version to gradle.properties",
        filePath := filePath,
        kind := "insert",
        patch := mkPatch filePath (String.mk content) (String.mk newContent),
        originalContent := some (String.mk content),
        newContent := some (String.mk newContent),
        summary := "Add SMARTECH_BASE_SDK_VERSION to gradle.properties.",
        confidence := 2/5,
        module := some "base",
        manualSnippet := none }

/-- The `metaData` template of `ensureManifestMetaData` (note its four leading
spaces of indentation). -/
def smtMetaData (appId : Text) : Text :=
  "    <meta-data\n        android:name=\"SMT_APP_ID\"\n        android:value=\"".data
    ++ appId ++ "\" />".data

/-- `/<meta-data[^>]*android:name="SMT_APP_ID"[^>]*android:value="[^"]*"[^>]*\/>/`. -/
def metaDataSmtRe : List RTok :=
  [litTok "<meta-data", .star (fun c => c != '>'), litTok "android:name=\"SMT_APP_ID\"",
   .star (fun c => c != '>'), litTok "android:value=\"", .star (fun c => c != '\"'),
   litTok "\"", .star (fun c => c != '>'), litTok "/>"]

/-- `/<application[^>]*>/`. -/
def applicationTagRe : List RTok :=
  [litTok "<application", .star (fun c => c != '>'), litTok ">"]

/-- The `SMT_APP_ID` insert/replace step of `ensureManifestMetaData`: replace
the first matching `<meta-data .../>` when `SMT_APP_ID` occurs anywhere, else
insert the template after the opening `<application ...>` tag. -/
def ensureManifestMetaDataText (appId : Text) (content : Text) : Text :=
  if textIncludes "SMT_APP_ID".data content then
    replaceFirstStr metaDataSmtRe (smtMetaData appId) content
  else if rtest applicationTagRe content then
    replaceFirst applicationTagRe (fun m => m ++ '\n' :: smtMetaData appId) content
  else content

/-- `ensureManifestMetaData` (rule level). -/
def ensureManifestMetaData (mkPatch : String → String → String → String)
    (manifestPath : String) (fileExists : Bool) (content : Text) (appId : Text) :
    Option Change :=
  if !fileExists || appId.isEmpty then none
  else
    let newContent := ensureManifestMetaDataText appId content
    if newContent = content then none
    else some
      { id := "android-manifest-metadata-appid",
        title := "Add Smartech app id meta-data",
        filePath := manifestPath,
        kind := "insert",
        patch := mkPatch manifestPath (String.mk content) (String.mk newContent),
        originalContent := some (String.mk content),
        newContent := some (String.mk newContent),
        summary := "Add SMT_APP_ID meta-data entry to AndroidManifest.xml.",
        confidence := 2/5,
        module := some "base",
        manualSnippet := none }

/-! ### Advisory changes of `runBaseRules` -/

/-- The advisory pushed by `runBaseRules` when `android/app/src/main/java`
does not exist (`base.js` lines 77-89): note it carries no `manualSnippet`. -/
def noJavaRootChange (javaRoot : String) : Change :=
  { id := "android-no-java-root",
    title := "Android source root not found",
    filePath := javaRoot,
    kind := "insert",
    patch := "",
    summary := "Expected android/app/src/main/java to exist. Integration requires Android sources.",
    confidence := 1/5,
    module := some "base",
    manualSnippet := none }

/-- `/android:allowBackup="false"/`. -/
def allowBackupFalseRe : List RTok := [litTok "android:allowBackup=\"false\""]

/-- `/android:fullBackupContent="([^"]+)"/`. -/
def fullBackupContentRe : List RTok :=
  [litTok "android:fullBackupContent=\"", .plus (fun c => c != '\"'), litTok "\""]

/-- `/android:dataExtractionRules="([^"]+)"/`. -/
def dataExtractionRulesRe : List RTok :=
  [litTok "android:dataExtractionRules=\"", .plus (fun c => c != '\"'), litTok "\""]

/-- The capture group `([^"]+)` of the two attribute regexes: the matched text
without the literal head and the closing quote. -/
def backupCapture (head : String) (m : Text) : Text := (m.drop head.length).dropLast

/-- `detectBackupWarnings`: the up-to-three advisory warnings about manifest
backup attributes, each with an empty patch and no `manualSnippet`. -/
def detectBackupWarnings (manifestPath : String) (fileExists : Bool) (content : Text) :
    List Change :=
  if !fileExists then []
  else
    (if rtest allowBackupFalseRe content then
      [{ id := "android-manifest-allowbackup-warning",
         title := "allowBackup is false in manifest",
         filePath := manifestPath, kind := "insert", patch := "",
         summary := "Manifest sets android:allowBackup=\"false\". Base integration will flip it to true for Smartech reinstall tracking.",
         confidence := 3/10, module := some "base", manualSnippet := none }]
     else [])
    ++ (match firstMatch fullBackupContentRe content with
      | some (_, m, _) =>
        let captured := backupCapture "android:fullBackupContent=\"" m
        if captured ≠ "@xml/my_backup_file".data then
          [{ id := "android-manifest-backupcontent-warning",
             title := "fullBackupContent already set",
             filePath := manifestPath, kind := "insert", patch := "",
             summary := String.mk ("Manifest already sets android:fullBackupContent to ".data
               ++ captured ++ ". Base integration will update it to @xml/my_backup_file.".data),
             confidence := 3/10, module := some "base", manualSnippet := none }]
        else []
      | none => [])
    ++ (match firstMatch dataExtractionRulesRe content with
      | some (_, m, _) =>
        let captured := backupCapture "android:dataExtractionRules=\"" m
        if captured ≠ "@xml/my_backup_file_31".data then
          [{ id := "android-manifest-datarules-warning",
             title := "dataExtractionRules already set",
             filePath := manifestPath, kind := "insert", patch := "",
             summary := String.mk ("Manifest already sets android:dataExtractionRules to ".data
               ++ captured ++ ". Base integration will update it to @xml/my_backup_file_31.".data),
             confidence := 3/10, module := some "base", manualSnippet := none }]
        else []
      | none => [])

/-- `BASE_DEEPLINK_MANUAL_SNIPPET`. -/
def BASE_DEEPLINK_MANUAL_SNIPPET : String :=
  "// MainActivity onCreate (Kotlin)\noverride fun onCreate(savedInstanceState: Bundle?) \x7b\n  super.onCreate(savedInstanceState)\n  val isSmartechHandledDeeplink =\n      Smartech.getInstance(WeakReference(this)).isDeepLinkFromSmartech(intent)\n  if (!isSmartechHandledDeeplink) \x7b\n    // Handle deeplink on app side\n  \x7d\n\x7d\n\n// AndroidManifest.xml (launcher activity)\n<intent-filter>\n  <action android:name=\"android.intent.action.VIEW\" />\n  <category android:name=\"android.intent.category.DEFAULT\" />\n  <category android:name=\"android.intent.category.BROWSABLE\" />\n  <data\n      android:scheme=\"YOUR_CUSTOM_SCHEME\"\n      android:host=\"smartech_sdk_td\" />\n</intent-filter>\n"

/-- The advisory pushed by `runBaseRules` when no launcher activity is found
(`base.js` lines 152-164): the only base advisory carrying a
`manualSnippet`. -/
def launcherActivityMissingChange (manifestPath : String) : Change :=
  { id := "android-launcher-activity-missing",
    title := "Launcher activity not found",
    filePath := manifestPath,
    kind := "insert",
    patch := "",
    summary := "Could not locate the launcher activity from AndroidManifest.xml. MainActivity deeplink integration was skipped.",
    confidence := 1/5,
    module := some "base",
    manualSnippet := some BASE_DEEPLINK_MANUAL_SNIPPET }

/-! ### Matcher computation lemmas -/

theorem matchToks_nil_toks (cs : Text) : matchToks [] cs = some ([], cs) := by
  simp [matchToks]

theorem matchToks_lit_pos (l : Text) (rest : List RTok) (cs : Text)
    (h : l.isPrefixOf cs = true) :
    matchToks (.lit l :: rest) cs
      = match matchToks rest (cs.drop l.length) with
        | some (m, r) => some (l ++ m, r)
        | none => none := by
  simp [matchToks, h]

theorem matchToks_lit_neg (l : Text) (rest : List RTok) (cs : Text)
    (h : l.isPrefixOf cs = false) :
    matchToks (.lit l :: rest) cs = none := by
  simp [matchToks, h]

theorem matchToks_star_toks (p : Char → Bool) (rest : List RTok) (cs : Text) :
    matchToks (.star p :: rest) cs = matchStar p rest cs := by
  simp [matchToks, matchStar]

theorem matchToks_plus_pos (p : Char → Bool) (c : Char) (cs' : Text) (rest : List RTok)
    (h : p c = true) :
    matchToks (.plus p :: rest) (c :: cs')
      = match matchStar p rest cs' with
        | some (m, r) => some (c :: m, r)
        | none => none := by
  simp [matchToks, matchStar, h]

theorem matchToks_plus_neg (p : Char → Bool) (c : Char) (cs' : Text) (rest : List RTok)
    (h : p c = false) :
    matchToks (.plus p :: rest) (c :: cs') = none := by
  simp [matchToks, h]

theorem matchStar_nil_text (p : Char → Bool) (rest : List RTok) :
    matchStar p rest [] = matchToks rest [] := by
  simp [matchStar, starRun]

theorem matchStar_cons_neg (p : Char → Bool) (c : Char) (rest : List RTok) (cs : Text)
    (h : p c = false) :
    matchStar p rest (c :: cs) = matchToks rest (c :: cs) := by
  simp [matchStar, starRun, h]

theorem matchStar_cons_pos (p : Char → Bool) (c : Char) (rest : List RTok) (cs : Text)
    (h : p c = true) :
    matchStar p rest (c :: cs)
      = match matchStar p rest cs with
        | some (m, r) => some (c :: m, r)
        | none => matchToks rest (c :: cs) := by
  simp [matchStar, starRun, h]

/-- Greedy success through a maximal run: when every character of `a`
satisfies `p`, `b` does not start with a `p`-character, and the continuation
succeeds on `b`, the star consumes exactly `a`. -/
theorem matchStar_run (p : Char → Bool) (rest : List RTok) (a b m r : Text)
    (ha : ∀ c ∈ a, p c = true)
    (hstop : b = [] ∨ ∃ c cs', b = c :: cs' ∧ p c = false)
    (hcont : matchToks rest b = some (m, r)) :
    matchStar p rest (a ++ b) = some (a ++ m, r) := by
  induction a with
  | nil =>
    simp only [List.nil_append]
    rcases hstop with h | ⟨c, cs', hb2, hc⟩
    · subst h; rw [matchStar_nil_text, hcont]
    · subst hb2; rw [matchStar_cons_neg p c rest cs' hc, hcont]
  | cons c a' ih =>
    have hc := ha c (List.mem_cons_self _ _)
    have hrec := ih fun x hx => ha x (List.mem_cons_of_mem _ hx)
    rw [List.cons_append, matchStar_cons_pos p c rest (a' ++ b) hc, hrec]
    rfl

theorem isPrefixOf_append_self (l t : Text) : l.isPrefixOf (l ++ t) = true := by
  induction l with
  | nil => simp [List.isPrefixOf]
  | cons c l' ih => simp [List.isPrefixOf, ih]

/-- The scan step when the tokens match at the current position. -/
theorem firstMatchAux_hit (toks : List RTok) (pre cs m r : Text)
    (h : matchToks toks cs = some (m, r)) :
    firstMatchAux toks pre cs = some (pre.reverse, m, r) := by
  cases cs with
  | nil => simp only [firstMatchAux]; rw [h]
  | cons c cs' => simp only [firstMatchAux]; rw [h]

/-- The scan step when the tokens fail at the current position. -/
theorem firstMatchAux_miss (toks : List RTok) (pre : Text) (c : Char) (cs' : Text)
    (h : matchToks toks (c :: cs') = none) :
    firstMatchAux toks pre (c :: cs') = firstMatchAux toks (c :: pre) cs' := by
  simp only [firstMatchAux]; rw [h]

/-- The scan of `firstMatchAux` lands on the first matching position: if the
tokens fail at every position inside `u` and match at the start of `cs`, the
first match of `u ++ cs` is at offset `u.length`. -/
theorem firstMatchAux_found (toks : List RTok) :
    ∀ (u pre cs m r : Text),
      (∀ q, q < u.length → matchToks toks ((u ++ cs).drop q) = none) →
      matchToks toks cs = some (m, r) →
      firstMatchAux toks pre (u ++ cs) = some (pre.reverse ++ u, m, r) := by
  intro u
  induction u with
  | nil =>
    intro pre cs m r _ hm
    rw [List.nil_append, firstMatchAux_hit toks pre cs m r hm, List.append_nil]
  | cons c u' ih =>
    intro pre cs m r hfail hm
    have h0 : matchToks toks (c :: (u' ++ cs)) = none := by
      have := hfail 0 (Nat.succ_pos _)
      simpa using this
    have hrec := ih (c :: pre) cs m r
      (fun q hq => by
        have := hfail (q + 1) (Nat.succ_lt_succ hq)
        simpa using this) hm
    calc firstMatchAux toks pre (c :: u' ++ cs)
        = firstMatchAux toks (c :: pre) (u' ++ cs) :=
          firstMatchAux_miss toks pre c (u' ++ cs) h0
      _ = some ((c :: pre).reverse ++ u', m, r) := hrec
      _ = some (pre.reverse ++ (c :: u'), m, r) := by simp

theorem firstMatch_found (toks : List RTok) (u cs m r : Text)
    (hfail : ∀ q, q < u.length → matchToks toks ((u ++ cs).drop q) = none)
    (hm : matchToks toks cs = some (m, r)) :
    firstMatch toks (u ++ cs) = some (u, m, r) := by
  have := firstMatchAux_found toks u [] cs m r hfail hm
  simpa [firstMatch] using this

/-- A match anywhere makes `rtest` succeed. -/
theorem rtest_append (toks : List RTok) (u cs : Text)
    (h : (matchToks toks cs).isSome = true) : rtest toks (u ++ cs) = true := by
  suffices hgen : ∀ (u : Text) (pre : Text), (firstMatchAux toks pre (u ++ cs)).isSome = true by
    simpa [rtest, firstMatch] using hgen u []
  intro u
  induction u with
  | nil =>
    intro pre
    rcases ho : matchToks toks cs with _ | ⟨m, r⟩
    · rw [ho] at h; simp at h
    · rw [List.nil_append, firstMatchAux_hit toks pre cs m r ho]
      rfl
  | cons c u' ih =>
    intro pre
    rcases ho : matchToks toks (c :: (u' ++ cs)) with _ | ⟨m, r⟩
    · rw [show (c :: u' ++ cs : Text) = c :: (u' ++ cs) from rfl,
        firstMatchAux_miss toks pre c (u' ++ cs) ho]
      exact ih (c :: pre)
    · rw [show (c :: u' ++ cs : Text) = c :: (u' ++ cs) from rfl,
        firstMatchAux_hit toks pre (c :: (u' ++ cs)) m r ho]
      rfl

/-! ### Soundness and completeness of the matcher -/

theorem eq_append_drop_of_isPrefixOf :
    ∀ {l cs : Text}, l.isPrefixOf cs = true → cs = l ++ cs.drop l.length := by
  intro l
  induction l with
  | nil => intro cs _; simp
  | cons c l' ih =>
    intro cs h
    cases cs with
    | nil => simp [List.isPrefixOf] at h
    | cons c' cs' =>
      simp only [List.isPrefixOf, Bool.and_eq_true, beq_iff_eq] at h
      obtain ⟨rfl, h2⟩ := h
      simpa using ih h2

theorem starRun_sound (p : Char → Bool) (k : Text → Option (Text × Text))
    (K : Text → Prop)
    (hk : ∀ cs m r, k cs = some (m, r) → cs = m ++ r ∧ K m) :
    ∀ cs m r, starRun p k cs = some (m, r) →
      cs = m ++ r ∧ ∃ w1 w2, m = w1 ++ w2 ∧ (∀ c ∈ w1, p c = true) ∧ K w2 := by
  intro cs
  induction cs with
  | nil =>
    intro m r h
    rw [show starRun p k [] = k [] from rfl] at h
    obtain ⟨he, hK⟩ := hk [] m r h
    exact ⟨he, [], m, by simp, by simp, hK⟩
  | cons c cs' ih =>
    intro m r h
    simp only [starRun] at h
    by_cases hc : p c = true
    · rw [if_pos hc] at h
      rcases hs : starRun p k cs' with _ | ⟨m', r'⟩
      · rw [hs] at h
        obtain ⟨he, hK⟩ := hk _ _ _ h
        exact ⟨he, [], m, by simp, by simp, hK⟩
      · rw [hs] at h
        have h2 : c :: m' = m ∧ r' = r := by simpa using h
        obtain ⟨rfl, rfl⟩ := h2
        obtain ⟨he, w1, w2, hm, hw1, hK⟩ := ih m' r' hs
        refine ⟨by simp [he], c :: w1, w2, by simp [hm], ?_, hK⟩
        intro x hx
        rcases List.mem_cons.mp hx with rfl | hx
        · exact hc
        · exact hw1 x hx
    · rw [if_neg hc] at h
      obtain ⟨he, hK⟩ := hk _ _ _ h
      exact ⟨he, [], m, by simp, by simp, hK⟩

theorem matchToks_sound :
    ∀ (toks : List RTok) (cs m r : Text),
      matchToks toks cs = some (m, r) → cs = m ++ r ∧ ToksMatch toks m := by
  intro toks
  induction toks with
  | nil =>
    intro cs m r h
    simp only [matchToks] at h
    have h2 : ([] : Text) = m ∧ cs = r := by simpa using h
    obtain ⟨h3, rfl⟩ := h2
    subst h3
    exact ⟨by simp, by simp [ToksMatch]⟩
  | cons t ts ih =>
    intro cs m r h
    cases t with
    | lit l =>
      simp only [matchToks] at h
      by_cases hp : l.isPrefixOf cs = true
      · rw [if_pos hp] at h
        rcases hm' : matchToks ts (cs.drop l.length) with _ | ⟨m', r'⟩
        · rw [hm'] at h; simp at h
        · rw [hm'] at h
          have h2 : l ++ m' = m ∧ r' = r := by simpa using h
          obtain ⟨rfl, rfl⟩ := h2
          obtain ⟨he, hts⟩ := ih _ _ _ hm'
          constructor
          · rw [eq_append_drop_of_isPrefixOf hp, he, List.append_assoc]
          · exact ⟨l, m', rfl, by simp [TokMatches], hts⟩
      · rw [if_neg hp] at h; simp at h
    | opt p =>
      cases cs with
      | nil =>
        simp only [matchToks] at h
        obtain ⟨he, hts⟩ := ih _ _ _ h
        exact ⟨he, [], m, by simp, Or.inl rfl, hts⟩
      | cons c cs' =>
        simp only [matchToks] at h
        by_cases hc : p c = true
        · rw [if_pos hc] at h
          rcases hm' : matchToks ts cs' with _ | ⟨m', r'⟩
          · rw [hm'] at h
            obtain ⟨he, hts⟩ := ih _ _ _ h
            exact ⟨he, [], m, by simp, Or.inl rfl, hts⟩
          · rw [hm'] at h
            have h2 : c :: m' = m ∧ r' = r := by simpa using h
            obtain ⟨rfl, rfl⟩ := h2
            obtain ⟨he, hts⟩ := ih _ _ _ hm'
            refine ⟨by simp [he], [c], m', rfl, Or.inr ⟨c, rfl, hc⟩, hts⟩
        · rw [if_neg hc] at h
          obtain ⟨he, hts⟩ := ih _ _ _ h
          exact ⟨he, [], m, by simp, Or.inl rfl, hts⟩
    | star p =>
      simp only [matchToks] at h
      obtain ⟨he, w1, w2, hm, hw1, hK⟩ :=
        starRun_sound p (matchToks ts) (ToksMatch ts) (fun x y z hh => ih x y z hh) cs m r h
      exact ⟨he, w1, w2, hm, hw1, hK⟩
    | plus p =>
      cases cs with
      | nil => simp [matchToks] at h
      | cons c cs' =>
        simp only [matchToks] at h
        by_cases hc : p c = true
        · rw [if_pos hc] at h
          rcases hs : starRun p (matchToks ts) cs' with _ | ⟨m', r'⟩
          · rw [hs] at h; simp at h
          · rw [hs] at h
            have h3 := Option.some.inj h
            have hm2 : m = c :: m' := (congrArg Prod.fst h3).symm
            have hr2 : r = r' := (congrArg Prod.snd h3).symm
            obtain ⟨he, w1, w2, hm, hw1, hK⟩ :=
              starRun_sound p (matchToks ts) (ToksMatch ts) (fun x y z hh => ih x y z hh)
                cs' m' r' hs
            subst hm2
            subst hr2
            refine ⟨by simp [he], c :: w1, w2, by simp [hm], ⟨by simp, ?_⟩, hK⟩
            intro x hx
            rcases List.mem_cons.mp hx with rfl | hx
            · exact hc
            · exact hw1 x hx
        · rw [if_neg hc] at h; simp at h

theorem starRun_complete (p : Char → Bool) (k : Text → Option (Text × Text))
    (K : Text → Prop) (hk : ∀ cs, K cs → (k cs).isSome = true) :
    ∀ (w1 w2 : Text), (∀ c ∈ w1, p c = true) → K w2 →
      (starRun p k (w1 ++ w2)).isSome = true := by
  intro w1
  induction w1 with
  | nil =>
    intro w2 _ hK
    have hks := hk w2 hK
    cases w2 with
    | nil => simpa [starRun] using hks
    | cons c w2' =>
      simp only [List.nil_append, starRun]
      by_cases hc : p c = true
      · rw [if_pos hc]
        rcases hs : starRun p k w2' with _ | ⟨m, r⟩
        · exact hks
        · simp
      · rw [if_neg hc]
        exact hks
  | cons c w1' ih =>
    intro w2 hall hK
    have hc := hall c (List.mem_cons_self _ _)
    have hrec := ih w2 (fun x hx => hall x (List.mem_cons_of_mem _ hx)) hK
    rw [List.cons_append]
    simp only [starRun, if_pos hc]
    rcases hs : starRun p k (w1' ++ w2) with _ | ⟨m, r⟩
    · rw [hs] at hrec; simp at hrec
    · simp

theorem matchToks_complete :
    ∀ (toks : List RTok) (cs : Text),
      (∃ m r, cs = m ++ r ∧ ToksMatch toks m) → (matchToks toks cs).isSome = true := by
  intro toks
  induction toks with
  | nil => intro cs _; simp [matchToks]
  | cons t ts ih =>
    intro cs hex
    obtain ⟨m, r, hcs, w1, w2, hm, ht, hts⟩ := hex
    cases t with
    | lit l =>
      simp only [TokMatches] at ht
      subst hm
      subst hcs
      rw [ht]
      simp only [matchToks]
      have hp : l.isPrefixOf ((l ++ w2) ++ r) = true := by
        rw [List.append_assoc]; exact isPrefixOf_append_self _ _
      rw [if_pos hp]
      have hdrop : ((l ++ w2) ++ r).drop l.length = w2 ++ r := by
        rw [List.append_assoc, List.drop_left]
      rw [hdrop]
      have := ih (w2 ++ r) ⟨w2, r, rfl, hts⟩
      rcases hm' : matchToks ts (w2 ++ r) with _ | ⟨m', r'⟩
      · rw [hm'] at this; simp at this
      · simp
    | star p =>
      simp only [TokMatches] at ht
      subst hm hcs
      simp only [matchToks]
      rw [List.append_assoc]
      exact starRun_complete p (matchToks ts)
        (fun x => ∃ m2 r2, x = m2 ++ r2 ∧ ToksMatch ts m2)
        (fun x hx => ih x hx) w1 (w2 ++ r) ht ⟨w2, r, rfl, hts⟩
    | plus p =>
      simp only [TokMatches] at ht
      obtain ⟨hne, hall⟩ := ht
      cases w1 with
      | nil => exact absurd rfl hne
      | cons c w1' =>
        subst hm hcs
        have hc := hall c (List.mem_cons_self _ _)
        have hshape : ((c :: w1') ++ w2) ++ r = c :: (w1' ++ (w2 ++ r)) := by simp
        rw [hshape]
        simp only [matchToks, if_pos hc]
        have := starRun_complete p (matchToks ts)
          (fun x => ∃ m2 r2, x = m2 ++ r2 ∧ ToksMatch ts m2)
          (fun x hx => ih x hx) w1' (w2 ++ r)
          (fun x hx => hall x (List.mem_cons_of_mem _ hx)) ⟨w2, r, rfl, hts⟩
        rcases hs : starRun p (matchToks ts) (w1' ++ (w2 ++ r)) with _ | ⟨m', r'⟩
        · rw [hs] at this; simp at this
        · simp
    | opt p =>
      simp only [TokMatches] at ht
      rcases ht with rfl | ⟨c, rfl, hc⟩
      · have hm2 : m = w2 := by simpa using hm
        have hcs2 : cs = w2 ++ r := by rw [hcs, hm2]
        rw [hcs2]
        rcases hw : w2 ++ r with _ | ⟨c, cs'⟩
        · simp only [matchToks]
          exact ih [] ⟨w2, r, hw.symm, hts⟩
        · simp only [matchToks]
          by_cases hc : p c = true
          · rw [if_pos hc]
            rcases hm' : matchToks ts cs' with _ | ⟨m', r'⟩
            · show (matchToks ts (c :: cs')).isSome = true
              rw [← hw]
              exact ih (w2 ++ r) ⟨w2, r, rfl, hts⟩
            · simp
          · rw [if_neg hc, ← hw]
            exact ih (w2 ++ r) ⟨w2, r, rfl, hts⟩
      · subst hm hcs
        have hshape : (([c] ++ w2) ++ r) = c :: (w2 ++ r) := by simp
        rw [hshape]
        simp only [matchToks, if_pos hc]
        have := ih (w2 ++ r) ⟨w2, r, rfl, hts⟩
        rcases hm' : matchToks ts (w2 ++ r) with _ | ⟨m', r'⟩
        · rw [hm'] at this; simp at this
        · simp

/-- The remainder returned through a star comes from some continuation
call. -/
theorem starRun_src (p : Char → Bool) (k : Text → Option (Text × Text)) :
    ∀ cs m r, starRun p k cs = some (m, r) → ∃ cs₀ m₀, k cs₀ = some (m₀, r) := by
  intro cs
  induction cs with
  | nil => intro m r h; exact ⟨[], m, h⟩
  | cons c cs' ih =>
    intro m r h
    simp only [starRun] at h
    by_cases hc : p c = true
    · rw [if_pos hc] at h
      rcases hs : starRun p k cs' with _ | ⟨m', r'⟩
      · rw [hs] at h; exact ⟨c :: cs', m, h⟩
      · rw [hs] at h
        have h2 : c :: m' = m ∧ r' = r := by simpa using h
        obtain ⟨_, rfl⟩ := h2
        exact ih m' r' hs
    · rw [if_neg hc] at h
      exact ⟨c :: cs', m, h⟩

theorem dropWhile_head_neg (p : Char → Bool) :
    ∀ cs : Text, cs.dropWhile p = [] ∨ ∃ c cs', cs.dropWhile p = c :: cs' ∧ p c = false := by
  intro cs
  induction cs with
  | nil => exact Or.inl rfl
  | cons c cs' ih =>
    by_cases hc : p c = true
    · simpa [List.dropWhile, hc] using ih
    · refine Or.inr ⟨c, cs', ?_, by simpa using hc⟩
      simp [List.dropWhile, hc]

/-- A star with the trivial continuation consumes exactly the maximal run. -/
theorem matchStar_nilCont (p : Char → Bool) :
    ∀ cs : Text, matchStar p [] cs = some (cs.takeWhile p, cs.dropWhile p) := by
  intro cs
  induction cs with
  | nil => simp [matchStar, starRun, matchToks]
  | cons c cs' ih =>
    by_cases hc : p c = true
    · rw [show matchStar p [] (c :: cs')
          = (match matchStar p [] cs' with
             | some (m, r) => some (c :: m, r)
             | none => matchToks [] (c :: cs')) from by
        simp [matchStar, starRun, hc]]
      rw [ih]
      simp [hc]
    · have hc' : p c = false := by simpa using hc
      rw [show matchStar p [] (c :: cs') = matchToks [] (c :: cs') from by
        simp [matchStar, starRun, hc']]
      simp [matchToks, hc']

/-- For a pattern ending in `p+`, the text after the match never starts with
a `p`-character (the greedy plus is maximal). -/
theorem matchToks_last_plus (p : Char → Bool) :
    ∀ (ts : List RTok) (cs m r : Text),
      matchToks (ts ++ [.plus p]) cs = some (m, r) →
      r = [] ∨ ∃ c cs', r = c :: cs' ∧ p c = false := by
  intro ts
  induction ts with
  | nil =>
    intro cs m r h
    rw [List.nil_append] at h
    cases cs with
    | nil => simp [matchToks] at h
    | cons c cs' =>
      by_cases hc : p c = true
      · rw [matchToks_plus_pos p c cs' [] hc, matchStar_nilCont p cs'] at h
        have h3 := Option.some.inj h
        have hr2 : r = cs'.dropWhile p := (congrArg Prod.snd h3).symm
        rw [hr2]
        exact dropWhile_head_neg p cs'
      · rw [matchToks_plus_neg p c cs' [] (by simpa using hc)] at h
        exact absurd h (by simp)
  | cons t ts' ih =>
    intro cs m r h
    cases t with
    | lit l =>
      rw [List.cons_append] at h
      simp only [matchToks] at h
      by_cases hp : l.isPrefixOf cs = true
      · rw [if_pos hp] at h
        split at h
        · rename_i m' r' hm'
          have h3 := Option.some.inj h
          have hr2 : r = r' := (congrArg Prod.snd h3).symm
          rw [hr2]
          exact ih _ _ _ hm'
        · simp at h
      · rw [if_neg hp] at h; simp at h
    | star q =>
      rw [List.cons_append] at h
      simp only [matchToks] at h
      obtain ⟨cs₀, m₀, hk⟩ := starRun_src q _ cs m r h
      exact ih _ _ _ hk
    | plus q =>
      rw [List.cons_append] at h
      cases cs with
      | nil => simp [matchToks] at h
      | cons c cs' =>
        simp only [matchToks] at h
        by_cases hc : q c = true
        · rw [if_pos hc] at h
          split at h
          · rename_i m' r' hs
            have h3 := Option.some.inj h
            have hr2 : r = r' := (congrArg Prod.snd h3).symm
            rw [hr2]
            obtain ⟨cs₀, m₀, hk⟩ := starRun_src q _ cs' m' r' hs
            exact ih _ _ _ hk
          · simp at h
        · rw [if_neg hc] at h; simp at h
    | opt q =>
      rw [List.cons_append] at h
      cases cs with
      | nil =>
        simp only [matchToks] at h
        exact ih _ _ _ h
      | cons c cs' =>
        simp only [matchToks] at h
        by_cases hc : q c = true
        · rw [if_pos hc] at h
          split at h
          · rename_i m' r' hm'
            have h3 := Option.some.inj h
            have hr2 : r = r' := (congrArg Prod.snd h3).symm
            rw [hr2]
            exact ih _ _ _ hm'
          · exact ih _ _ _ h
        · rw [if_neg hc] at h
          exact ih _ _ _ h

/-- Inversion of the leftmost scan: a first match splits the text, matches at
the split and fails strictly earlier. -/
theorem firstMatchAux_inv (toks : List RTok) :
    ∀ (cs pre0 pre m r : Text), firstMatchAux toks pre0 cs = some (pre, m, r) →
      ∃ u, pre = pre0.reverse ++ u ∧ cs = u ++ (m ++ r)
        ∧ matchToks toks (m ++ r) = some (m, r)
        ∧ ∀ q, q < u.length → matchToks toks (cs.drop q) = none := by
  intro cs
  induction cs with
  | nil =>
    intro pre0 pre m r h
    simp only [firstMatchAux] at h
    rcases ho : matchToks toks [] with _ | ⟨m', r'⟩
    · rw [ho] at h; simp at h
    · rw [ho] at h
      have h3 := Option.some.inj h
      have h1 : pre0.reverse = pre := congrArg (fun t => t.1) h3
      have hm2 : m' = m := congrArg (fun t => t.2.1) h3
      have hr2 : r' = r := congrArg (fun t => t.2.2) h3
      rw [← hm2, ← hr2]
      have hs := matchToks_sound toks [] m' r' ho
      refine ⟨[], by simp [h1], by simpa using hs.1, ?_, by intro q hq; simp at hq⟩
      rw [← hs.1]; exact ho
  | cons c cs' ih =>
    intro pre0 pre m r h
    simp only [firstMatchAux] at h
    rcases ho : matchToks toks (c :: cs') with _ | ⟨m', r'⟩
    · rw [ho] at h
      obtain ⟨u, h1, h2, h3, h4⟩ := ih (c :: pre0) pre m r h
      refine ⟨c :: u, ?_, by rw [List.cons_append, ← h2], h3, ?_⟩
      · rw [h1]; simp
      · intro q hq
        cases q with
        | zero => simpa using ho
        | succ q' =>
          have := h4 q' (by simpa using hq)
          simpa using this
    · rw [ho] at h
      have h3 := Option.some.inj h
      have h1 : pre0.reverse = pre := congrArg (fun t => t.1) h3
      have hm2 : m' = m := congrArg (fun t => t.2.1) h3
      have hr2 : r' = r := congrArg (fun t => t.2.2) h3
      rw [← hm2, ← hr2]
      have hs := matchToks_sound toks (c :: cs') m' r' ho
      refine ⟨[], by simp [h1], by simpa using hs.1, ?_, by intro q hq; simp at hq⟩
      rw [← hs.1]; exact ho

/-- Inversion of `firstMatch`. -/
theorem firstMatch_inv (toks : List RTok) (cs pre m r : Text)
    (h : firstMatch toks cs = some (pre, m, r)) :
    cs = pre ++ (m ++ r)
    ∧ matchToks toks (m ++ r) = some (m, r)
    ∧ ∀ q, q < pre.length → matchToks toks (cs.drop q) = none := by
  obtain ⟨u, h1, h2, h3, h4⟩ := firstMatchAux_inv toks cs [] pre m r h
  simp only [List.reverse_nil, List.nil_append] at h1
  subst h1
  exact ⟨h2, h3, h4⟩

/-! ### Mutator idempotence facts -/

/-- A replacement string without `$` is substituted literally. -/
theorem jsSub_no_dollar (pre m post : Text) :
    ∀ t : Text, (∀ c ∈ t, (c != '$') = true) → jsSub pre m post t = t := by
  intro t
  induction t with
  | nil => intro _; rfl
  | cons c rest ih =>
    intro h
    have hc : (c != '$') = true := h c (List.mem_cons_self _ _)
    have hc2 : ¬ (c = '$') := by simpa using hc
    rw [jsSub.eq_def]
    simp only [hc2, if_false]
    rw [ih (fun x hx => h x (List.mem_cons_of_mem _ hx))]

/-- String replacement without `$` behaves as literal replacement. -/
theorem replaceFirstStr_no_dollar (toks : List RTok) (repl cs : Text)
    (h : ∀ c ∈ repl, (c != '$') = true) :
    replaceFirstStr toks repl cs = replaceFirst toks (fun _ => repl) cs := by
  unfold replaceFirstStr replaceFirst
  rcases hfm : firstMatch toks cs with _ | ⟨pre, m, post⟩
  · rfl
  · show pre ++ jsSub pre m post repl ++ post = pre ++ (fun _ => repl) m ++ post
    rw [jsSub_no_dollar pre m post repl h]

theorem textIncludes_of (n x y : Text) : textIncludes n (x ++ (n ++ y)) = true := by
  induction x with
  | nil =>
    rw [List.nil_append]
    cases hh : n ++ y with
    | nil =>
      have hn : n = [] := (List.append_eq_nil.mp hh).1
      simp [textIncludes, hn, List.isPrefixOf]
    | cons c rest =>
      have hp : n.isPrefixOf (n ++ y) = true := isPrefixOf_append_self n y
      rw [hh] at hp
      simp [textIncludes, hp]
  | cons c x' ih =>
    rw [List.cons_append]
    simp [textIncludes, ih]

/-- A source on which the import pass and the missing-line detection are both
already satisfied is a fixed point of `injectJavaInit`. -/
theorem injectJavaInit_fixed (t : Text)
    (h1 : ensureJavaImports t javaInitImports = t)
    (h2 : getMissingJavaInitLines t = []) :
    injectJavaInit t = t := by
  unfold injectJavaInit
  simp [h1, h2]

/-- The head of the matched text of the `SMT_APP_ID` `<meta-data>` regex is
always `<`. -/
theorem metaDataSmtRe_match_head (m2 : Text) (h : ToksMatch metaDataSmtRe m2) :
    m2.head? = some '<' := by
  obtain ⟨w1, w2, hm, ht, _⟩ := h
  simp only [TokMatches, metaDataSmtRe, litTok] at ht
  subst ht
  rw [hm]
  rfl

/-- After the insert branch of the `SMT_APP_ID` step ran (manifest without the
key, with an `<application ...>` tag), running the step again edits the text
once more: the replace branch substitutes the four-space-indented template for
the matched tag, growing the indentation — the step is not idempotent. -/
theorem ensureManifestMetaDataText_insert_not_idempotent (appId s : Text)
    (hniq : ∀ c ∈ appId, (c != '\"') = true)
    (hdApp : ∀ c ∈ appId, (c != '$') = true)
    (hno : textIncludes "SMT_APP_ID".data s = false)
    (happ : rtest applicationTagRe s = true) :
    ensureManifestMetaDataText appId (ensureManifestMetaDataText appId s)
      ≠ ensureManifestMetaDataText appId s := by
  have e1 : ensureManifestMetaDataText appId s
      = replaceFirst applicationTagRe (fun m => m ++ '\n' :: smtMetaData appId) s := by
    unfold ensureManifestMetaDataText
    rw [hno, happ]
    simp
  rcases hfm : firstMatch applicationTagRe s with _ | ⟨⟨pre, mm, post⟩⟩
  · rw [rtest, hfm] at happ; simp at happ
  · have ht : ensureManifestMetaDataText appId s
        = pre ++ (mm ++ '\n' :: smtMetaData appId) ++ post := by
      rw [e1]; unfold replaceFirst; rw [hfm]
    set t := pre ++ (mm ++ '\n' :: smtMetaData appId) ++ post with hdef
    -- SMT_APP_ID occurs in the inserted template
    have hshape : t = (pre ++ (mm ++ ('\n' ::
        "    <meta-data\n        android:name=\"".data)))
        ++ ("SMT_APP_ID".data ++ ("\"\n        android:value=\"".data ++ appId
          ++ "\" />".data ++ post)) := by
      rw [hdef]
      simp [smtMetaData, List.append_assoc]
    have htinc : textIncludes "SMT_APP_ID".data t = true := by
      rw [hshape]
      exact textIncludes_of _ _ _
    have htmpl : ∀ c ∈ smtMetaData appId, (c != '$') = true := by
      intro c hc
      simp only [smtMetaData, List.mem_append] at hc
      rcases hc with (hc | hc) | hc
      · exact (by decide : ∀ c ∈ "    <meta-data\n        android:name=\"SMT_APP_ID\"\n        android:value=\"".data, (c != '$') = true) c hc
      · exact hdApp c hc
      · exact (by decide : ∀ c ∈ "\" />".data, (c != '$') = true) c hc
    have e2 : ensureManifestMetaDataText appId t
        = replaceFirst metaDataSmtRe (fun _ => smtMetaData appId) t := by
      unfold ensureManifestMetaDataText
      rw [htinc]
      rw [if_pos rfl]
      exact replaceFirstStr_no_dollar metaDataSmtRe (smtMetaData appId) t htmpl
    -- the canonical template matches the meta-data regex
    have hsem : ToksMatch metaDataSmtRe
        ("<meta-data".data ++ ("\n        ".data
          ++ ("android:name=\"SMT_APP_ID\"".data ++ ("\n        ".data
          ++ ("android:value=\"".data ++ (appId ++ ("\"".data
          ++ (" ".data ++ "/>".data)))))))) := by
      refine ⟨"<meta-data".data, _, rfl, by simp [TokMatches, metaDataSmtRe, litTok], ?_⟩
      refine ⟨"\n        ".data, _, rfl, by simp only [TokMatches]; decide, ?_⟩
      refine ⟨"android:name=\"SMT_APP_ID\"".data, _, rfl,
        by simp [TokMatches, metaDataSmtRe, litTok], ?_⟩
      refine ⟨"\n        ".data, _, rfl, by simp only [TokMatches]; decide, ?_⟩
      refine ⟨"android:value=\"".data, _, rfl,
        by simp [TokMatches, metaDataSmtRe, litTok], ?_⟩
      refine ⟨appId, _, rfl, ?_, ?_⟩
      · intro c hc; exact hniq c hc
      · refine ⟨"\"".data, _, rfl, by simp [TokMatches, metaDataSmtRe, litTok], ?_⟩
        refine ⟨" ".data, _, rfl, by simp only [TokMatches]; decide, ?_⟩
        refine ⟨"/>".data, [], by simp, by simp [TokMatches, metaDataSmtRe, litTok], rfl⟩
    have hsome : (firstMatch metaDataSmtRe t).isSome = true := by
      have hshape2 : t = (pre ++ (mm ++ ('\n' :: "    ".data)))
          ++ (("<meta-data".data ++ ("\n        ".data
            ++ ("android:name=\"SMT_APP_ID\"".data ++ ("\n        ".data
            ++ ("android:value=\"".data ++ (appId ++ ("\"".data
            ++ (" ".data ++ "/>".data)))))))) ++ post) := by
        rw [hdef]
        simp [smtMetaData, List.append_assoc]
      have := matchToks_complete metaDataSmtRe
        (("<meta-data".data ++ ("\n        ".data
          ++ ("android:name=\"SMT_APP_ID\"".data ++ ("\n        ".data
          ++ ("android:value=\"".data ++ (appId ++ ("\"".data
          ++ (" ".data ++ "/>".data)))))))) ++ post)
        ⟨_, post, rfl, hsem⟩
      have h2 := rtest_append metaDataSmtRe (pre ++ (mm ++ ('\n' :: "    ".data))) _ this
      rw [rtest] at h2
      rw [hshape2]
      exact h2
    rcases hfm2 : firstMatch metaDataSmtRe t with _ | ⟨⟨p2, m2, r2⟩⟩
    · rw [hfm2] at hsome; simp at hsome
    · have hinv := firstMatch_inv metaDataSmtRe t p2 m2 r2 hfm2
      have hrepl : ensureManifestMetaDataText appId t
          = p2 ++ smtMetaData appId ++ r2 := by
        rw [e2]; unfold replaceFirst; rw [hfm2]
      rw [ht, hrepl]
      intro hcontra
      have hts := (matchToks_sound metaDataSmtRe (m2 ++ r2) m2 r2 hinv.2.1).2
      have hhead := metaDataSmtRe_match_head m2 hts
      have h5 : p2 ++ smtMetaData appId ++ r2 = p2 ++ (m2 ++ r2) :=
        hcontra.trans hinv.1
      rw [List.append_assoc] at h5
      have h6 : smtMetaData appId ++ r2 = m2 ++ r2 := by
        have := List.append_cancel_left h5
        exact this
      have h7 : (smtMetaData appId ++ r2).head? = (m2 ++ r2).head? := by rw [h6]
      have h8 : (smtMetaData appId ++ r2).head? = some ' ' := by
        simp [smtMetaData]
      have h9 : (m2 ++ r2).head? = some '<' := by
        cases m2 with
        | nil => simp at hhead
        | cons a m2' =>
          have ha : a = '<' := by simpa [List.head?] using hhead
          simp [List.head?, ha]
      rw [h7, h9] at h8
      exact absurd (Option.some.inj h8) (by decide)

/-! ### Helpers for the gradle step idempotence -/

/-- A success at any offset makes `rtest` succeed. -/
theorem rtest_of_drop (toks : List RTok) (s : Text) (q : Nat)
    (h : (matchToks toks (s.drop q)).isSome = true) : rtest toks s = true := by
  have := rtest_append toks (s.take q) (s.drop q) h
  rwa [List.take_append_drop] at this

/-- Decomposition of a text matched by `KEY\s*=\s*[^\n]+`. -/
theorem keyVal_sem_decomp (m : Text) (h : ToksMatch gradleKeyValueRe m) :
    ∃ a1 a2 b d, m = "SMARTECH_BASE_SDK_VERSION".data ++ (a1 ++ '=' :: (a2 ++ b :: d))
      ∧ (∀ x ∈ a1, isWsChar x = true) ∧ (∀ x ∈ a2, isWsChar x = true)
      ∧ (b != '\n') = true ∧ (∀ x ∈ d, (x != '\n') = true) := by
  obtain ⟨w1, z1, hm1, ht1, w2, z2, hm2, ht2, w3, z3, hm3, ht3, w4, z4, hm4, ht4,
    w5, z5, hm5, ht5, hz5⟩ := h
  simp only [TokMatches, gradleKeyValueRe, litTok] at ht1 ht2 ht3 ht4 ht5
  obtain ⟨hne, hall⟩ := ht5
  cases w5 with
  | nil => exact absurd rfl hne
  | cons b d =>
    subst ht1 ht3
    simp only [ToksMatch] at hz5
    subst hz5
    refine ⟨w2, w4, b, d, ?_, ht2, ht4, hall b (List.mem_cons_self _ _),
      fun x hx => hall x (List.mem_cons_of_mem _ hx)⟩
    rw [hm1, hm2, hm3, hm4, hm5]
    simp

/-- Construction of a `KEY\s*=\s*[^\n]+` match from its pieces. -/
theorem keyVal_sem_build (a1 a2 : Text) (b : Char) (d : Text)
    (h1 : ∀ x ∈ a1, isWsChar x = true) (h2 : ∀ x ∈ a2, isWsChar x = true)
    (hb : (b != '\n') = true) (hd : ∀ x ∈ d, (x != '\n') = true) :
    ToksMatch gradleKeyValueRe
      ("SMARTECH_BASE_SDK_VERSION".data ++ (a1 ++ '=' :: (a2 ++ b :: d))) := by
  refine ⟨"SMARTECH_BASE_SDK_VERSION".data, _, rfl,
    by simp [TokMatches, gradleKeyValueRe, litTok], ?_⟩
  refine ⟨a1, _, rfl, h1, ?_⟩
  refine ⟨"=".data, _, rfl, by simp [TokMatches, gradleKeyValueRe, litTok], ?_⟩
  refine ⟨a2, _, rfl, h2, ?_⟩
  refine ⟨b :: d, [], by simp, ?_, rfl⟩
  refine ⟨by simp, ?_⟩
  intro x hx
  rcases List.mem_cons.mp hx with rfl | hx
  · exact hb
  · exact hd x hx

/-- Construction of a `KEY\s*=` match from its pieces. -/
theorem keyTest_sem_build (a1 : Text) (h1 : ∀ x ∈ a1, isWsChar x = true) :
    ToksMatch gradleKeyTestRe ("SMARTECH_BASE_SDK_VERSION".data ++ (a1 ++ ['='])) := by
  refine ⟨"SMARTECH_BASE_SDK_VERSION".data, _, rfl,
    by simp [TokMatches, gradleKeyTestRe, litTok], ?_⟩
  refine ⟨a1, _, rfl, h1, ?_⟩
  exact ⟨"=".data, [], by simp, by simp [TokMatches, gradleKeyTestRe, litTok], rfl⟩

/-- `trimEnd` splits a text into its kept prefix and a whitespace tail. -/
theorem trimEnd_decomp (s : Text) :
    ∃ w, s = trimEndText s ++ w ∧ ∀ c ∈ w, isWsChar c = true := by
  refine ⟨(s.reverse.takeWhile isWsChar).reverse, ?_, ?_⟩
  · calc s = s.reverse.reverse := (List.reverse_reverse s).symm
    _ = (s.reverse.takeWhile isWsChar ++ s.reverse.dropWhile isWsChar).reverse := by
        rw [List.takeWhile_append_dropWhile]
    _ = (s.reverse.dropWhile isWsChar).reverse ++ (s.reverse.takeWhile isWsChar).reverse := by
        rw [List.reverse_append]
    _ = trimEndText s ++ (s.reverse.takeWhile isWsChar).reverse := rfl
  · intro c hc
    rw [List.mem_reverse] at hc
    exact List.mem_takeWhile_imp hc

/-- The key has no self-overlap: no proper shift aligns it with itself. -/
theorem key_no_self_overlap :
    ∀ k < 25, 0 < k →
      ¬ ("SMARTECH_BASE_SDK_VERSION".data.drop k
        = "SMARTECH_BASE_SDK_VERSION".data.take (25 - k)) := by
  decide

/-- Crossing analysis: if a text of shape `u ++ (KEY= v ++ z)` decomposes as
`KEY ++ ws-run ++ '=' ++ t0`, then the whole `KEY ws* =` part lies inside
`u` (the key cannot straddle the boundary, having no self-overlap and no
whitespace characters). -/
theorem key_cross (u v z a1 t0 : Text)
    (hu : u ≠ [])
    (ha1 : ∀ x ∈ a1, isWsChar x = true)
    (heq : u ++ (("SMARTECH_BASE_SDK_VERSION".data ++ '=' :: v) ++ z)
         = "SMARTECH_BASE_SDK_VERSION".data ++ (a1 ++ '=' :: t0)) :
    ∃ c2, u = "SMARTECH_BASE_SDK_VERSION".data ++ (a1 ++ '=' :: c2)
      ∧ t0 = c2 ++ (("SMARTECH_BASE_SDK_VERSION".data ++ '=' :: v) ++ z) := by
  have hkeyS : "SMARTECH_BASE_SDK_VERSION".data
      = 'S' :: "MARTECH_BASE_SDK_VERSION".data := rfl
  have heq2 : u ++ (("SMARTECH_BASE_SDK_VERSION".data ++ '=' :: v) ++ z)
      = ("SMARTECH_BASE_SDK_VERSION".data ++ a1) ++ '=' :: t0 := by
    rw [heq, List.append_assoc]
  rcases List.append_eq_append_iff.mp heq2 with ⟨b, hD, hRz⟩ | ⟨cp, hu2, ht⟩
  · -- the '=' would fall beyond `u`: impossible
    exfalso
    cases b with
    | nil =>
      rw [List.append_nil] at hD
      rw [List.nil_append] at hRz
      rw [hkeyS] at hRz
      have h1 : 'S' :: ("MARTECH_BASE_SDK_VERSION".data ++ ('=' :: v ++ z))
          = '=' :: t0 := by simpa using hRz
      have : 'S' = '=' := (List.cons.inj h1).1
      exact absurd this (by decide)
    | cons e b2 =>
      have he : e = 'S' := by
        rw [hkeyS] at hRz
        have h1 : 'S' :: ("MARTECH_BASE_SDK_VERSION".data ++ ('=' :: v ++ z))
            = e :: (b2 ++ '=' :: t0) := by simpa using hRz
        exact ((List.cons.inj h1).1).symm
      subst he
      rcases List.append_eq_append_iff.mp hD with ⟨f, huf, haf⟩ | ⟨f, huf, hfa⟩
      · -- `u` extends past the key: the tail of the ws-run would start with 'S'
        have hmem : 'S' ∈ a1 := by rw [haf]; exact List.mem_append_right f (by simp)
        have := ha1 'S' hmem
        exact absurd this (by decide)
      · cases f with
        | nil =>
          rw [List.append_nil] at huf
          rw [List.nil_append] at hfa
          have hmem : 'S' ∈ a1 := by rw [← hfa]; simp
          have := ha1 'S' hmem
          exact absurd this (by decide)
        | cons g f2 =>
          -- proper overlap of the key with itself: excluded by decidable check
          have hdropf : "SMARTECH_BASE_SDK_VERSION".data.drop u.length = g :: f2 := by
            rw [huf]; exact List.drop_left u _
          have hlen : u.length + (g :: f2).length = 25 := by
            have := congrArg List.length huf
            simpa using this.symm
          have hk0 : 0 < u.length := List.length_pos.mpr hu
          have hk25 : u.length < 25 := by
            have : (g :: f2).length ≥ 1 := by simp
            omega
          have hRz2 : "SMARTECH_BASE_SDK_VERSION".data ++ (('=' :: v) ++ z)
              = (g :: f2) ++ (a1 ++ '=' :: t0) := by
            rw [← List.append_assoc, hRz, hfa, List.append_assoc]
          have hftake : (g :: f2)
              = "SMARTECH_BASE_SDK_VERSION".data.take (g :: f2).length := by
            have h1 : (g :: f2)
                = ((g :: f2) ++ (a1 ++ '=' :: t0)).take (g :: f2).length :=
              (List.take_left _ _).symm
            rw [← hRz2, List.take_append_eq_append_take] at h1
            have hle : (g :: f2).length ≤ 25 := by omega
            have hz : (g :: f2).length - ("SMARTECH_BASE_SDK_VERSION".data).length = 0 := by
              have : ("SMARTECH_BASE_SDK_VERSION".data).length = 25 := rfl
              omega
            rw [hz] at h1
            simpa using h1
          have hlen2 : (g :: f2).length = 25 - u.length := by omega
          have := key_no_self_overlap u.length hk25 hk0
          rw [hdropf, ← hlen2, ← hftake] at this

          exact this rfl
  · -- the '=' falls inside `u`
    cases cp with
    | nil =>
      exfalso
      rw [List.nil_append, hkeyS] at ht
      have h1 : '=' :: t0
          = 'S' :: (("MARTECH_BASE_SDK_VERSION".data ++ '=' :: v) ++ z) := by
        simpa using ht
      have : '=' = 'S' := (List.cons.inj h1).1
      exact absurd this (by decide)
    | cons e cp2 =>
      have hht : '=' :: t0
          = e :: (cp2 ++ (("SMARTECH_BASE_SDK_VERSION".data ++ '=' :: v) ++ z)) := by
        simpa using ht
      have he : e = '=' := ((List.cons.inj hht).1).symm
      subst he
      refine ⟨cp2, ?_, (List.cons.inj hht).2⟩
      rw [hu2, List.append_assoc]

/-- After the append branch of the gradle step, no `KEY\s*=\s*[^\n]+` match
starts before the appended line (a match there would yield a `KEY\s*=` match
inside the original file, contradicting the failed test). -/
theorem gradle_append_no_early (s v : Text)
    (htest : rtest gradleKeyTestRe s = false) :
    ∀ q, q < (trimEndText s ++ ['\n']).length →
      matchToks gradleKeyValueRe
        (((trimEndText s ++ ['\n'])
          ++ (("SMARTECH_BASE_SDK_VERSION".data ++ '=' :: v) ++ ['\n'])).drop q)
        = none := by
  intro q hq
  by_contra hcon
  rcases ho : matchToks gradleKeyValueRe
      (((trimEndText s ++ ['\n'])
        ++ (("SMARTECH_BASE_SDK_VERSION".data ++ '=' :: v) ++ ['\n'])).drop q) with _ | ⟨m, r⟩
  · exact hcon ho
  obtain ⟨hsplit, hts⟩ := matchToks_sound gradleKeyValueRe _ m r ho
  obtain ⟨a1, a2, bb, dd, hm, ha1, ha2, hbb, hdd⟩ := keyVal_sem_decomp m hts
  have hqle : q ≤ (trimEndText s ++ ['\n']).length := le_of_lt hq
  have hdrop : ((trimEndText s ++ ['\n'])
      ++ (("SMARTECH_BASE_SDK_VERSION".data ++ '=' :: v) ++ ['\n'])).drop q
      = (trimEndText s ++ ['\n']).drop q
        ++ (("SMARTECH_BASE_SDK_VERSION".data ++ '=' :: v) ++ ['\n']) :=
    List.drop_append_of_le_length hqle
  have hu_ne : (trimEndText s ++ ['\n']).drop q ≠ [] := by
    intro hnil
    have := List.drop_eq_nil_iff.mp hnil
    omega
  obtain ⟨c2, hc2u, -⟩ := key_cross ((trimEndText s ++ ['\n']).drop q) v ['\n']
    a1 (a2 ++ bb :: (dd ++ r)) hu_ne ha1 (by
      have h0 := hdrop.symm.trans hsplit
      rw [hm] at h0
      simpa [List.append_assoc] using h0)
  have hqT : q ≤ (trimEndText s).length := by
    have : (trimEndText s ++ ['\n']).length = (trimEndText s).length + 1 := by simp
    omega
  have hdropT : (trimEndText s ++ ['\n']).drop q = (trimEndText s).drop q ++ ['\n'] :=
    List.drop_append_of_le_length hqT
  rw [hdropT] at hc2u
  rcases List.eq_nil_or_concat' c2 with rfl | ⟨c3, x, rfl⟩
  · have h1 : (trimEndText s).drop q ++ ['\n']
        = ("SMARTECH_BASE_SDK_VERSION".data ++ a1) ++ ['='] := by
      rw [hc2u]; simp
    obtain ⟨-, h2⟩ := List.append_inj' h1 (by simp)
    exact absurd (List.cons.inj h2).1 (by decide)
  · have h1 : (trimEndText s).drop q ++ ['\n']
        = ("SMARTECH_BASE_SDK_VERSION".data ++ (a1 ++ '=' :: c3)) ++ [x] := by
      rw [hc2u]; simp
    obtain ⟨h3, -⟩ := List.append_inj' h1 (by simp)
    obtain ⟨w, hw, hwws⟩ := trimEnd_decomp s
    have hsq := congrArg (List.drop q) hw
    rw [List.drop_append_of_le_length hqT, h3] at hsq
    have hcomp := matchToks_complete gradleKeyTestRe (s.drop q)
      ⟨"SMARTECH_BASE_SDK_VERSION".data ++ (a1 ++ ['=']), c3 ++ w,
        by rw [hsq]; simp, keyTest_sem_build a1 ha1⟩
    have hrt := rtest_of_drop gradleKeyTestRe s q hcomp
    rw [htest] at hrt
    exact Bool.false_ne_true hrt

/-! ### The gradle.properties version step, on files containing the key -/

/-- Computation of the first `SMARTECH_BASE_SDK_VERSION\s*=\s*[^\n]+` match
right at a `KEY=` occurrence: the star consumes the whitespace of the value,
the plus consumes the value up to the line end. -/
theorem matchToks_gradleValue (a : Text) (c : Char) (d tail : Text)
    (ha : ∀ x ∈ a, isWsChar x = true)
    (hcw : isWsChar c = false) (hcn : (c != '\n') = true)
    (hd : ∀ x ∈ d, (x != '\n') = true)
    (htail : tail = [] ∨ ∃ ts, tail = '\n' :: ts) :
    matchToks gradleKeyValueRe
        ("SMARTECH_BASE_SDK_VERSION".data ++ ('=' :: (a ++ c :: d)) ++ tail)
      = some ("SMARTECH_BASE_SDK_VERSION".data ++ ('=' :: (a ++ c :: d)), tail) := by
  have hplus : matchToks [.plus fun x => x != '\n'] (c :: (d ++ tail))
      = some (c :: d, tail) := by
    rw [matchToks_plus_pos (fun x => x != '\n') c (d ++ tail) [] hcn]
    have hrun := matchStar_run (fun x => x != '\n') [] d tail [] tail hd
      (by
        rcases htail with h | ⟨ts, h⟩
        · exact Or.inl h
        · exact Or.inr ⟨'\n', ts, h, by decide⟩)
      (matchToks_nil_toks tail)
    simp only [List.append_nil] at hrun
    rw [hrun]
  have hstar2 : matchStar isWsChar [.plus fun x => x != '\n'] (a ++ c :: (d ++ tail))
      = some (a ++ (c :: d), tail) := by
    have := matchStar_run isWsChar [.plus fun x => x != '\n'] a (c :: (d ++ tail))
      (c :: d) tail ha (Or.inr ⟨c, d ++ tail, rfl, hcw⟩) hplus
    simpa using this
  have heq : matchToks [litTok "=", .star isWsChar, .plus fun x => x != '\n']
      ('=' :: (a ++ c :: d) ++ tail) = some ('=' :: (a ++ c :: d), tail) := by
    have hpre : ("=".data).isPrefixOf ('=' :: (a ++ c :: d) ++ tail) = true := by
      simp [List.isPrefixOf]
    rw [show (litTok "=" : RTok) = .lit "=".data from rfl,
      matchToks_lit_pos "=".data _ _ hpre]
    have hdrop : (('=' :: (a ++ c :: d) ++ tail).drop ("=".data).length)
        = a ++ (c :: (d ++ tail)) := by simp
    rw [hdrop, matchToks_star_toks, hstar2]
    rfl
  have hkey : ("SMARTECH_BASE_SDK_VERSION".data).isPrefixOf
      ("SMARTECH_BASE_SDK_VERSION".data ++ (('=' :: (a ++ c :: d)) ++ tail)) = true :=
    isPrefixOf_append_self _ _
  have hshape : gradleKeyValueRe
      = .lit "SMARTECH_BASE_SDK_VERSION".data ::
          [.star isWsChar, litTok "=", .star isWsChar, .plus fun x => x != '\n'] := rfl
  rw [List.append_assoc, hshape, matchToks_lit_pos "SMARTECH_BASE_SDK_VERSION".data _ _ hkey,
    List.drop_left]
  rw [matchToks_star_toks]
  have hne : isWsChar '=' = false := by decide
  rw [show ('=' :: (a ++ c :: d)) ++ tail = '=' :: ((a ++ c :: d) ++ tail) from rfl]
  rw [matchStar_cons_neg isWsChar '=' _ _ hne]
  rw [show ('=' :: ((a ++ c :: d) ++ tail)) = ('=' :: (a ++ c :: d) ++ tail) from rfl, heq]

/-- The detection test `KEY\s*=` succeeds on any text containing `KEY=`. -/
theorem rtest_gradleKey (pre tail : Text) :
    rtest gradleKeyTestRe (pre ++ ("SMARTECH_BASE_SDK_VERSION".data ++ '=' :: tail)) = true := by
  apply rtest_append
  have hkey : ("SMARTECH_BASE_SDK_VERSION".data).isPrefixOf
      ("SMARTECH_BASE_SDK_VERSION".data ++ '=' :: tail) = true :=
    isPrefixOf_append_self _ _
  have hshape : gradleKeyTestRe
      = .lit "SMARTECH_BASE_SDK_VERSION".data :: [.star isWsChar, litTok "="] := rfl
  rw [hshape, matchToks_lit_pos "SMARTECH_BASE_SDK_VERSION".data _ _ hkey, List.drop_left]
  rw [matchToks_star_toks, matchStar_cons_neg isWsChar '=' _ _ (by decide)]
  rw [show (litTok "=" : RTok) = .lit "=".data from rfl,
    matchToks_lit_pos "=".data _ _ (by simp [List.isPrefixOf])]
  simp [matchToks_nil_toks]

/-- Idempotence of the gradle step, append branch: re-running the step on the
output with the appended `KEY=version` line replaces that line with itself. -/
theorem gradleVersionStep_append_case (v a : Text) (c0 : Char) (d s : Text)
    (hva : v = a ++ c0 :: d) (ha : ∀ x ∈ a, isWsChar x = true)
    (hc0w : isWsChar c0 = false) (hc0n : (c0 != '\n') = true)
    (hd : ∀ x ∈ d, (x != '\n') = true)
    (hdol : ∀ x ∈ v, (x != '$') = true)
    (htest : rtest gradleKeyTestRe s = false) :
    gradleVersionStep v (gradleVersionStep v s) = gradleVersionStep v s := by
  have hKE : "SMARTECH_BASE_SDK_VERSION=".data
      = "SMARTECH_BASE_SDK_VERSION".data ++ ['='] := by decide
  have htmpl : ∀ c ∈ ("SMARTECH_BASE_SDK_VERSION=".data ++ v), (c != '$') = true := by
    intro c hc
    rcases List.mem_append.mp hc with hc | hc
    · exact (by decide : ∀ c ∈ "SMARTECH_BASE_SDK_VERSION=".data, (c != '$') = true) c hc
    · exact hdol c hc
  have hA : gradleVersionStep v s
      = (trimEndText s ++ ['\n'])
        ++ (("SMARTECH_BASE_SDK_VERSION".data ++ '=' :: v) ++ ['\n']) := by
    simp only [gradleVersionStep, htest, Bool.false_eq_true, if_false]
    simp [hKE, List.append_assoc]
  have hm2 : matchToks gradleKeyValueRe
      (("SMARTECH_BASE_SDK_VERSION".data ++ '=' :: v) ++ ['\n'])
      = some ("SMARTECH_BASE_SDK_VERSION".data ++ '=' :: v, ['\n']) := by
    have := matchToks_gradleValue a c0 d ['\n'] ha hc0w hc0n hd (Or.inr ⟨[], rfl⟩)
    rw [← hva] at this
    exact this
  have hfm : firstMatch gradleKeyValueRe (gradleVersionStep v s)
      = some (trimEndText s ++ ['\n'], "SMARTECH_BASE_SDK_VERSION".data ++ '=' :: v, ['\n']) := by
    rw [hA]
    exact firstMatch_found gradleKeyValueRe (trimEndText s ++ ['\n'])
      (("SMARTECH_BASE_SDK_VERSION".data ++ '=' :: v) ++ ['\n'])
      ("SMARTECH_BASE_SDK_VERSION".data ++ '=' :: v) ['\n']
      (gradle_append_no_early s v htest) hm2
  have htest2 : rtest gradleKeyTestRe (gradleVersionStep v s) = true := by
    rw [hA]
    have := rtest_gradleKey (trimEndText s ++ ['\n']) (v ++ ['\n'])
    simpa [List.append_assoc] using this
  have houter : gradleVersionStep v (gradleVersionStep v s)
      = replaceFirst gradleKeyValueRe
          (fun _ => "SMARTECH_BASE_SDK_VERSION=".data ++ v) (gradleVersionStep v s) := by
    conv_lhs => rw [gradleVersionStep]
    rw [htest2, if_pos rfl]
    exact replaceFirstStr_no_dollar gradleKeyValueRe _ _ htmpl
  rw [houter, replaceFirst, hfm]
  rw [hA]
  simp [hKE, List.append_assoc]

/-- Idempotence of the gradle step, replace branch: re-running the step on
the output with `KEY=version` substituted for the first `KEY\s*=\s*[^\n]+`
replaces the substituted text with itself. -/
theorem gradleVersionStep_replace_case (v a : Text) (c0 : Char) (d s : Text)
    (hva : v = a ++ c0 :: d) (ha : ∀ x ∈ a, isWsChar x = true)
    (hc0w : isWsChar c0 = false) (hc0n : (c0 != '\n') = true)
    (hd : ∀ x ∈ d, (x != '\n') = true)
    (hdol : ∀ x ∈ v, (x != '$') = true)
    (htest : rtest gradleKeyTestRe s = true) :
    gradleVersionStep v (gradleVersionStep v s) = gradleVersionStep v s := by
  have hKE : "SMARTECH_BASE_SDK_VERSION=".data
      = "SMARTECH_BASE_SDK_VERSION".data ++ ['='] := by decide
  have htmpl : ∀ c ∈ ("SMARTECH_BASE_SDK_VERSION=".data ++ v), (c != '$') = true := by
    intro c hc
    rcases List.mem_append.mp hc with hc | hc
    · exact (by decide : ∀ c ∈ "SMARTECH_BASE_SDK_VERSION=".data, (c != '$') = true) c hc
    · exact hdol c hc
  have hrepl : ∀ t : Text, replaceFirstStr gradleKeyValueRe
        ("SMARTECH_BASE_SDK_VERSION=".data ++ v) t
      = replaceFirst gradleKeyValueRe
          (fun _ => "SMARTECH_BASE_SDK_VERSION=".data ++ v) t :=
    fun t => replaceFirstStr_no_dollar gradleKeyValueRe _ t htmpl
  have hkeyS : "SMARTECH_BASE_SDK_VERSION".data
      = 'S' :: "MARTECH_BASE_SDK_VERSION".data := rfl
  rcases hfm : firstMatch gradleKeyValueRe s with _ | ⟨pre, m, post⟩
  · have hgs : gradleVersionStep v s = s := by
      simp only [gradleVersionStep, htest, if_true]
      rw [hrepl]
      simp only [replaceFirst, hfm]
    rw [hgs]
    exact hgs
  · obtain ⟨hsplit, hmm, hleft⟩ := firstMatch_inv gradleKeyValueRe s pre m post hfm
    have hts := (matchToks_sound gradleKeyValueRe (m ++ post) m post hmm).2
    obtain ⟨b1, b2, bb, dd, hmdec, hb1, hb2, hbb, hdd⟩ := keyVal_sem_decomp m hts
    have hpost : post = [] ∨ ∃ ts2, post = '\n' :: ts2 := by
      have hsh : gradleKeyValueRe
          = [litTok "SMARTECH_BASE_SDK_VERSION", .star isWsChar, litTok "=",
             .star isWsChar] ++ [.plus (fun c => c != '\n')] := rfl
      have hlp := matchToks_last_plus (fun c => c != '\n')
        [litTok "SMARTECH_BASE_SDK_VERSION", .star isWsChar, litTok "=", .star isWsChar]
        (m ++ post) m post (by rw [← hsh]; exact hmm)
      rcases hlp with h | ⟨c, cs', hr, hpc⟩
      · exact Or.inl h
      · refine Or.inr ⟨cs', ?_⟩
        rw [hr]
        have hc : c = '\n' := by
          rcases eq_or_ne c '\n' with hceq | hcne
          · exact hceq
          · exact absurd hpc (by simp [hcne])
        rw [hc]
    have hgs : gradleVersionStep v s
        = pre ++ (("SMARTECH_BASE_SDK_VERSION".data ++ '=' :: v) ++ post) := by
      simp only [gradleVersionStep, htest, if_true]
      rw [hrepl]
      simp only [replaceFirst, hfm]
      simp [hKE, List.append_assoc]
    have hfail2 : ∀ q, q < pre.length → matchToks gradleKeyValueRe
        ((pre ++ (("SMARTECH_BASE_SDK_VERSION".data ++ '=' :: v) ++ post)).drop q)
        = none := by
      intro q hq
      by_contra hcon
      rcases ho : matchToks gradleKeyValueRe
          ((pre ++ (("SMARTECH_BASE_SDK_VERSION".data ++ '=' :: v) ++ post)).drop q)
          with _ | ⟨m2, r2⟩
      · exact hcon ho
      obtain ⟨hsplit2, hts2⟩ := matchToks_sound gradleKeyValueRe _ m2 r2 ho
      obtain ⟨a1, a2, cc, ee, hm2dec, ha1, ha2, hcc, hee⟩ := keyVal_sem_decomp m2 hts2
      have hqle : q ≤ pre.length := le_of_lt hq
      have hdropq : (pre ++ (("SMARTECH_BASE_SDK_VERSION".data ++ '=' :: v) ++ post)).drop q
          = pre.drop q ++ (("SMARTECH_BASE_SDK_VERSION".data ++ '=' :: v) ++ post) :=
        List.drop_append_of_le_length hqle
      have hu_ne : pre.drop q ≠ [] := by
        intro hnil
        have := List.drop_eq_nil_iff.mp hnil
        omega
      obtain ⟨c2, hc2u, hc2t⟩ := key_cross (pre.drop q) v post a1
        (a2 ++ cc :: (ee ++ r2)) hu_ne ha1 (by
          have h0 := hdropq.symm.trans hsplit2
          rw [hm2dec] at h0
          simpa [List.append_assoc] using h0)
      have hsq : s.drop q = pre.drop q ++ (m ++ post) := by
        have h0 := congrArg (List.drop q) hsplit
        rwa [List.drop_append_of_le_length hqle] at h0
      have hnone := hleft q hq
      rcases List.append_eq_append_iff.mp hc2t with ⟨f, hcf, hbf⟩ | ⟨f, haf, hrf⟩
      · cases f with
        | nil =>
          rw [List.append_nil] at hcf
          have hc2ws : ∀ x ∈ c2, isWsChar x = true := by rw [hcf]; exact ha2
          have hcomp := matchToks_complete gradleKeyValueRe (s.drop q)
            ⟨"SMARTECH_BASE_SDK_VERSION".data ++ (a1 ++ '=' :: (c2 ++ ['S'])),
              "MARTECH_BASE_SDK_VERSION".data
                ++ ((b1 ++ '=' :: (b2 ++ bb :: dd)) ++ post),
              by rw [hsq, hc2u, hmdec]; simp [hkeyS, List.append_assoc],
              keyVal_sem_build a1 c2 'S' [] ha1 hc2ws (by decide) (by simp)⟩
          rw [hnone] at hcomp
          simp at hcomp
        | cons ff f2 =>
          have hbf2 : cc :: (ee ++ r2)
              = ff :: (f2 ++ (("SMARTECH_BASE_SDK_VERSION".data ++ '=' :: v) ++ post)) := by
            simpa using hbf
          have hffc : ff = cc := ((List.cons.inj hbf2).1).symm
          rw [hffc] at hcf
          have hcomp := matchToks_complete gradleKeyValueRe (s.drop q)
            ⟨"SMARTECH_BASE_SDK_VERSION".data ++ (a1 ++ '=' :: (a2 ++ [cc])),
              f2 ++ (m ++ post),
              by rw [hsq, hc2u, hcf]; simp [List.append_assoc],
              keyVal_sem_build a1 a2 cc [] ha1 ha2 hcc (by simp)⟩
          rw [hnone] at hcomp
          simp at hcomp
      · cases f with
        | nil =>
          rw [List.append_nil] at haf
          have hc2ws : ∀ x ∈ c2, isWsChar x = true := by rw [← haf]; exact ha2
          have hcomp := matchToks_complete gradleKeyValueRe (s.drop q)
            ⟨"SMARTECH_BASE_SDK_VERSION".data ++ (a1 ++ '=' :: (c2 ++ ['S'])),
              "MARTECH_BASE_SDK_VERSION".data
                ++ ((b1 ++ '=' :: (b2 ++ bb :: dd)) ++ post),
              by rw [hsq, hc2u, hmdec]; simp [hkeyS, List.append_assoc],
              keyVal_sem_build a1 c2 'S' [] ha1 hc2ws (by decide) (by simp)⟩
          rw [hnone] at hcomp
          simp at hcomp
        | cons ff f2 =>
          exfalso
          have hrf2 : 'S' :: ("MARTECH_BASE_SDK_VERSION".data ++ ('=' :: v ++ post))
              = ff :: (f2 ++ cc :: (ee ++ r2)) := by
            rw [hkeyS] at hrf
            simpa using hrf
          have hffS : ff = 'S' := ((List.cons.inj hrf2).1).symm
          have hmem : 'S' ∈ a2 := by
            rw [haf, ← hffS]
            exact List.mem_append_right c2 (by simp)
          exact absurd (ha2 'S' hmem) (by decide)
    have hm2 : matchToks gradleKeyValueRe
        (("SMARTECH_BASE_SDK_VERSION".data ++ '=' :: v) ++ post)
        = some ("SMARTECH_BASE_SDK_VERSION".data ++ '=' :: v, post) := by
      have := matchToks_gradleValue a c0 d post ha hc0w hc0n hd hpost
      rw [← hva] at this
      exact this
    have hfm2 : firstMatch gradleKeyValueRe (gradleVersionStep v s)
        = some (pre, "SMARTECH_BASE_SDK_VERSION".data ++ '=' :: v, post) := by
      rw [hgs]
      exact firstMatch_found gradleKeyValueRe pre
        (("SMARTECH_BASE_SDK_VERSION".data ++ '=' :: v) ++ post)
        ("SMARTECH_BASE_SDK_VERSION".data ++ '=' :: v) post hfail2 hm2
    have htest2 : rtest gradleKeyTestRe (gradleVersionStep v s) = true := by
      rw [hgs]
      have := rtest_gradleKey pre (v ++ post)
      simpa [List.append_assoc] using this
    have houter : gradleVersionStep v (gradleVersionStep v s)
        = replaceFirst gradleKeyValueRe
            (fun _ => "SMARTECH_BASE_SDK_VERSION=".data ++ v) (gradleVersionStep v s) := by
      conv_lhs => rw [gradleVersionStep]
      rw [htest2, if_pos rfl]
      exact hrepl _
    rw [houter, replaceFirst, hfm2]
    rw [hgs]
    simp [hKE, List.append_assoc]

/-- The gradle version step is idempotent for every version text that has no
newline, no `$` (the replacement is a JS string, so `$` would be substituted)
and at least one non-whitespace character (every real version string), on
every file content. -/
theorem gradleVersionStep_idem (v : Text)
    (hv1 : ∀ c ∈ v, (c != '\n') = true)
    (hdol : ∀ c ∈ v, (c != '$') = true)
    (hv2 : ∃ c ∈ v, isWsChar c = false) (s : Text) :
    gradleVersionStep v (gradleVersionStep v s) = gradleVersionStep v s := by
  obtain ⟨c1, hc1mem, hc1⟩ := hv2
  rcases hdwe : v.dropWhile isWsChar with _ | ⟨c0, d⟩
  · exfalso
    have hall := List.dropWhile_eq_nil_iff.mp hdwe
    exact absurd (hall c1 hc1mem) (by simp [hc1])
  have hva : v = v.takeWhile isWsChar ++ c0 :: d := by
    conv_lhs => rw [← List.takeWhile_append_dropWhile isWsChar v]
    rw [hdwe]
  have ha : ∀ x ∈ v.takeWhile isWsChar, isWsChar x = true :=
    fun _ hx => List.mem_takeWhile_imp hx
  have hc0w : isWsChar c0 = false := by
    rcases dropWhile_head_neg isWsChar v with h | ⟨c, cs', hdw2, hpc⟩
    · rw [h] at hdwe; exact absurd hdwe (by simp)
    · rw [hdwe] at hdw2
      have := (List.cons.inj hdw2).1
      rwa [← this] at hpc
  have hc0n : (c0 != '\n') = true :=
    hv1 c0 (by rw [hva]; exact List.mem_append_right _ (List.mem_cons_self _ _))
  have hd : ∀ x ∈ d, (x != '\n') = true :=
    fun x hx => hv1 x (by rw [hva]; exact List.mem_append_right _ (List.mem_cons_of_mem _ hx))
  rcases htb : rtest gradleKeyTestRe s with _ | _
  · exact gradleVersionStep_append_case v (v.takeWhile isWsChar) c0 d s hva ha hc0w hc0n hd
      hdol htb
  · exact gradleVersionStep_replace_case v (v.takeWhile isWsChar) c0 d s hva ha hc0w hc0n hd
      hdol htb

/-- The version replace step on a file `pre ++ "KEY=3.7.0\n" ++ post` whose
`pre` contains no occurrence of the key: only the value of that line
changes. -/
theorem gradleVersionStep_replaces (pre post : Text)
    (H : ∀ q, q < pre.length →
      ("SMARTECH_BASE_SDK_VERSION".data.isPrefixOf
        ((pre ++ ("SMARTECH_BASE_SDK_VERSION=3.7.0\n".data ++ post)).drop q)) = false) :
    gradleVersionStep "3.7.6".data
        (pre ++ ("SMARTECH_BASE_SDK_VERSION=3.7.0\n".data ++ post))
      = pre ++ ("SMARTECH_BASE_SDK_VERSION=3.7.6\n".data ++ post) := by
  have hm : matchToks gradleKeyValueRe ("SMARTECH_BASE_SDK_VERSION=3.7.0\n".data ++ post)
      = some ("SMARTECH_BASE_SDK_VERSION=3.7.0".data, '\n' :: post) := by
    have := matchToks_gradleValue [] '3' ".7.0".data ('\n' :: post)
      (by intro x hx; cases hx) (by decide) (by decide)
      (by decide) (Or.inr ⟨post, rfl⟩)
    simpa using this
  have hfail : ∀ q, q < pre.length →
      matchToks gradleKeyValueRe
        ((pre ++ ("SMARTECH_BASE_SDK_VERSION=3.7.0\n".data ++ post)).drop q) = none := by
    intro q hq
    have hshape : gradleKeyValueRe
        = .lit "SMARTECH_BASE_SDK_VERSION".data ::
            [.star isWsChar, litTok "=", .star isWsChar, .plus fun x => x != '\n'] := rfl
    rw [hshape]
    exact matchToks_lit_neg _ _ _ (H q hq)
  have hfm : firstMatch gradleKeyValueRe
      (pre ++ ("SMARTECH_BASE_SDK_VERSION=3.7.0\n".data ++ post))
      = some (pre, "SMARTECH_BASE_SDK_VERSION=3.7.0".data, '\n' :: post) :=
    firstMatch_found gradleKeyValueRe pre _ _ _ hfail hm
  have htest : rtest gradleKeyTestRe
      (pre ++ ("SMARTECH_BASE_SDK_VERSION=3.7.0\n".data ++ post)) = true := by
    have := rtest_gradleKey pre ("3.7.0\n".data ++ post)
    simpa using this
  unfold gradleVersionStep
  rw [htest]
  simp only [if_true]
  rw [replaceFirstStr_no_dollar gradleKeyValueRe _ _
    (by decide : ∀ c ∈ ("SMARTECH_BASE_SDK_VERSION=".data ++ "3.7.6".data),
      (c != '$') = true)]
  unfold replaceFirst
  rw [hfm]
  show pre ++ ("SMARTECH_BASE_SDK_VERSION=".data ++ "3.7.6".data) ++ ('\n' :: post)
      = pre ++ ("SMARTECH_BASE_SDK_VERSION=3.7.6\n".data ++ post)
  rw [List.append_assoc]
  rfl

/-- C7 (amended): on a `gradle.properties` containing the line
`SMARTECH_BASE_SDK_VERSION=3.7.0` (and no other occurrence of the key before
it), requesting version `3.7.6` produces a `Change` of kind `insert` — not
`update` as the claim states — whose `newContent` equals the original with
only that line's value replaced, all other lines preserved verbatim. -/
theorem ensureGradleProperty_updates_only_version
    (mkPatch : String → String → String → String) (filePath : String) (pre post : Text)
    (H : ∀ q, q < pre.length →
      ("SMARTECH_BASE_SDK_VERSION".data.isPrefixOf
        ((pre ++ ("SMARTECH_BASE_SDK_VERSION=3.7.0\n".data ++ post)).drop q)) = false) :
    ensureGradleProperty mkPatch filePath true
        (pre ++ ("SMARTECH_BASE_SDK_VERSION=3.7.0\n".data ++ post)) "3.7.6".data
      = some
        { id := "android-gradle-properties-smartech",
          title := "Add Smartech SDK version to gradle.properties",
          filePath := filePath,
          kind := "insert",
          patch := mkPatch filePath
            (String.mk (pre ++ ("SMARTECH_BASE_SDK_VERSION=3.7.0\n".data ++ post)))
            (String.mk (pre ++ ("SMARTECH_BASE_SDK_VERSION=3.7.6\n".data ++ post))),
          originalContent :=
            some (String.mk (pre ++ ("SMARTECH_BASE_SDK_VERSION=3.7.0\n".data ++ post))),
          newContent :=
            some (String.mk (pre ++ ("SMARTECH_BASE_SDK_VERSION=3.7.6\n".data ++ post))),
          summary := "Add SMARTECH_BASE_SDK_VERSION to gradle.properties.",
          confidence := 2/5,
          module := some "base",
          manualSnippet := none } := by
  have hstep := gradleVersionStep_replaces pre post H
  have hne : pre ++ ("SMARTECH_BASE_SDK_VERSION=3.7.6\n".data ++ post)
      ≠ pre ++ ("SMARTECH_BASE_SDK_VERSION=3.7.0\n".data ++ post) := by
    intro h
    have h2 := congrArg (List.drop pre.length) h
    rw [List.drop_left, List.drop_left] at h2
    have h3 := congrArg (List.take ("SMARTECH_BASE_SDK_VERSION=3.7.6\n".data).length) h2
    rw [List.take_left] at h3
    rw [show ("SMARTECH_BASE_SDK_VERSION=3.7.6\n".data).length
        = ("SMARTECH_BASE_SDK_VERSION=3.7.0\n".data).length from rfl, List.take_left] at h3
    exact absurd h3 (by decide)
  unfold ensureGradleProperty
  rw [hstep]
  simp only [Bool.not_true, Bool.false_eq_true, if_false, if_neg hne]

/-! ### Patcher lemmas -/

theorem applyLoop_dryRun (ap : String → String → Nat → Option String) (fuzz : Nat)
    (fs : String → String) (chs : List Change) (cache : FileCache) :
    applyLoop ap fuzz fs true chs cache
      = (chs.map fun c => ⟨c.id, false, "Dry run: no changes applied."⟩, cache) := by
  induction chs generalizing cache with
  | nil => rfl
  | cons c rest ih => simp [applyLoop, applyStep, ih]

theorem applyLoop_length (ap : String → String → Nat → Option String) (fuzz : Nat)
    (fs : String → String) (dryRun : Bool) (chs : List Change) (cache : FileCache) :
    (applyLoop ap fuzz fs dryRun chs cache).1.length = chs.length := by
  induction chs generalizing cache with
  | nil => rfl
  | cons c rest ih => simp [applyLoop, ih]

/-- The step for a change whose non-empty patch fails to apply and whose
fallback is inapplicable leaves the cache untouched and reports failure. -/
theorem applyStep_fail (ap : String → String → Nat → Option String) (fuzz : Nat)
    (fs : String → String) (change : Change) (cache : FileCache)
    (hp : change.patch ≠ "")
    (hap : ap (bufCurrent fs cache change.filePath) change.patch fuzz = none)
    (hfb : ¬ (strTruthy change.newContent = true
        ∧ bufCurrent fs cache change.filePath = bufOriginal fs cache change.filePath)) :
    applyStep ap fuzz fs false change cache
      = (⟨change.id, false, "Failed to apply patch."⟩, cache) := by
  simp [applyStep, hp, hap, hfb]

/-- The step for a change whose non-empty patch fails while the fallback is
applicable replaces the file's buffer with `newContent` wholesale. -/
theorem applyStep_fallback (ap : String → String → Nat → Option String) (fuzz : Nat)
    (fs : String → String) (change : Change) (cache : FileCache)
    (hp : change.patch ≠ "")
    (hap : ap (bufCurrent fs cache change.filePath) change.patch fuzz = none)
    (hfb : strTruthy change.newContent = true
        ∧ bufCurrent fs cache change.filePath = bufOriginal fs cache change.filePath) :
    applyStep ap fuzz fs false change cache
      = (⟨change.id, true, "Applied change with fallback content."⟩,
         cacheSet change.filePath
           ⟨bufOriginal fs cache change.filePath, change.newContent.getD ""⟩ cache) := by
  obtain ⟨h1, h2⟩ := hfb
  rw [h2] at hap
  simp [applyStep, hp, hap, h1, h2]

/-! ### C9: dry run performs no I/O -/

/-- C9: for every change list, `applyChanges` with `dryRun = true` returns one
`applied:false` result with the dry-run message per change, writes nothing,
and its output does not depend on the file system or the patch engine (no file
is read and none is written). -/
theorem applyChanges_dryRun_pure (ap ap' : String → String → Nat → Option String)
    (fuzz fuzz' : Nat) (fs fs' : String → String) (changes : List Change) :
    applyChanges ap fuzz fs changes true = applyChanges ap' fuzz' fs' changes true
    ∧ (applyChanges ap fuzz fs changes true).2 = []
    ∧ (applyChanges ap fuzz fs changes true).1
        = changes.map fun c => ⟨c.id, false, "Dry run: no changes applied."⟩ := by
  refine ⟨?_, ?_, ?_⟩ <;> simp [applyChanges, applyLoop_dryRun]

/-- Witness for C9 at a concrete batch. -/
theorem applyChanges_dryRun_pure_witness :
    (applyChanges apNone 5 fs0 [chFail, chNext] true).2 = []
    ∧ (applyChanges apNone 5 fs0 [chFail, chNext] true).1
        = [⟨"c-fail", false, "Dry run: no changes applied."⟩,
           ⟨"c-next", false, "Dry run: no changes applied."⟩] := by
  have h := applyChanges_dryRun_pure apNone apNone 5 5 fs0 fs0 [chFail, chNext]
  exact ⟨h.2.1, h.2.2⟩

/-! ### C2: fallback to `newContent` exactly on a pristine buffer -/

/-- C2: in a non-dry batch, when a change's non-empty patch fails to apply,
the whole-file fallback to `newContent` is taken if and only if the change has
a (truthy, i.e. non-empty — JS `change.newContent &&`) `newContent` and the
file's current buffer still equals the pristine original loaded for that file;
otherwise the change yields `applied:false` and the cache (hence any earlier
mutation of the buffer) is left untouched while the rest of the batch
continues from it. -/
theorem applyChanges_fallback_iff_pristine (ap : String → String → Nat → Option String)
    (fuzz : Nat) (fs : String → String) (change : Change) (rest : List Change)
    (cache : FileCache)
    (hp : change.patch ≠ "")
    (hap : ap (bufCurrent fs cache change.filePath) change.patch fuzz = none) :
    (strTruthy change.newContent = true
        ∧ bufCurrent fs cache change.filePath = bufOriginal fs cache change.filePath →
      applyLoop ap fuzz fs false (change :: rest) cache
        = (⟨change.id, true, "Applied change with fallback content."⟩ ::
            (applyLoop ap fuzz fs false rest
              (cacheSet change.filePath
                ⟨bufOriginal fs cache change.filePath, change.newContent.getD ""⟩ cache)).1,
           (applyLoop ap fuzz fs false rest
              (cacheSet change.filePath
                ⟨bufOriginal fs cache change.filePath, change.newContent.getD ""⟩ cache)).2))
    ∧ (¬ (strTruthy change.newContent = true
        ∧ bufCurrent fs cache change.filePath = bufOriginal fs cache change.filePath) →
      applyLoop ap fuzz fs false (change :: rest) cache
        = (⟨change.id, false, "Failed to apply patch."⟩ ::
            (applyLoop ap fuzz fs false rest cache).1,
           (applyLoop ap fuzz fs false rest cache).2)) := by
  constructor
  · intro hfb
    simp [applyLoop, applyStep_fallback ap fuzz fs change cache hp hap hfb]
  · intro hfb
    simp [applyLoop, applyStep_fail ap fuzz fs change cache hp hap hfb]

/-- Witness for C2: a failing change with a non-empty `newContent` on a
pristine buffer falls back; the same change after an earlier mutation of the
file does not. -/
theorem applyChanges_fallback_iff_pristine_witness :
    (chFallback.patch ≠ "" ∧
      (applyLoop apNone 0 fs0 false [chFallback] []).1
        = [⟨"drift", true, "Applied change with fallback content."⟩])
    ∧ (chFail.patch ≠ "" ∧
      (applyLoop apNone 0 fs0 false [chFail] []).1
        = [⟨"c-fail", false, "Failed to apply patch."⟩]) := by
  constructor
  · refine ⟨by decide, ?_⟩
    have h := (applyChanges_fallback_iff_pristine apNone 0 fs0
      chFallback [] [] (by decide) rfl).1 (by constructor <;> rfl)
    rw [h]; rfl
  · refine ⟨by decide, ?_⟩
    have h := (applyChanges_fallback_iff_pristine apNone 0 fs0 chFail [] []
      (by decide) rfl).2 (by intro hc; exact absurd hc.1 (by decide))
    rw [h]; rfl

/-! ### C4: a failing change does not abort the batch -/

/-- C4: in a non-dry batch, a change whose patch fails to apply with no usable
fallback produces `{applied:false, message:"Failed to apply patch."}` without
aborting: the loop is total (one result per change, never a thrown exception)
and the remaining changes are processed from an unchanged cache, exactly as
they would have been without the failing change. -/
theorem applyChanges_failure_resilient (ap : String → String → Nat → Option String)
    (fuzz : Nat) (fs : String → String) :
    (∀ changes, (applyChanges ap fuzz fs changes false).1.length = changes.length)
    ∧ (∀ (change : Change) (rest : List Change) (cache : FileCache),
        change.patch ≠ "" →
        ap (bufCurrent fs cache change.filePath) change.patch fuzz = none →
        ¬ (strTruthy change.newContent = true
            ∧ bufCurrent fs cache change.filePath = bufOriginal fs cache change.filePath) →
        applyLoop ap fuzz fs false (change :: rest) cache
          = (⟨change.id, false, "Failed to apply patch."⟩ ::
              (applyLoop ap fuzz fs false rest cache).1,
             (applyLoop ap fuzz fs false rest cache).2)) := by
  constructor
  · intro changes
    simp [applyChanges, applyLoop_length]
  · intro change rest cache hp hap hfb
    simp [applyLoop, applyStep_fail ap fuzz fs change cache hp hap hfb]

/-- Witness for C4: the failing change reports the exact message and the
following change to another file still applies. -/
theorem applyChanges_failure_resilient_witness :
    (chFail.patch ≠ ""
      ∧ applyLoop apNone 5 fs0 false [chFail, chNext] []
          = (⟨"c-fail", false, "Failed to apply patch."⟩ ::
              (applyLoop apNone 5 fs0 false [chNext] []).1,
             (applyLoop apNone 5 fs0 false [chNext] []).2))
    ∧ (applyChanges apNone 5 fs0 [chFail, chNext] false).1.length = 2 := by
  refine ⟨⟨by decide, ?_⟩, ?_⟩
  · exact (applyChanges_failure_resilient apNone 5 fs0).2 chFail [chNext] []
      (by decide) rfl (by intro hc; exact absurd hc.1 (by decide))
  · exact (applyChanges_failure_resilient apNone 5 fs0).1 [chFail, chNext]

/-! ### C1: the fuzz factor of the production patch application -/

/-- C1: the two in-repo copies of `applyChanges` disagree on the fuzz factor.
`packages/engine/src/patcher.ts` line 40 passes `fuzzFactor: 5`, so a patch
whose context lines have drifted within the tolerance is still applied, while
`packages/engine/dist/patcher.js` line 30 — the artifact actually imported
through `@smartech/engine`, carrying the strict-match comment the claim
restates — passes `fuzzFactor: 0` and rejects the same patch. -/
theorem patcher_fuzz_divergence :
    tsFuzzFactor = 5 ∧ distFuzzFactor = 0
    ∧ (applyChangesTs apDrift fs0 [chDrift] false).1
        = [⟨"drift", true, "Applied change."⟩]
    ∧ (applyChangesDist apDrift fs0 [chDrift] false).1
        = [⟨"drift", false, "Failed to apply patch."⟩] := by
  refine ⟨rfl, rfl, ?_, ?_⟩ <;> decide

/-! ### C3: one write per touched file, after the whole batch -/

theorem cacheSet_keys (k : String) (v : FileBuf) :
    ∀ cache : FileCache,
      (cacheSet k v cache).map Prod.fst
        = if k ∈ cache.map Prod.fst then cache.map Prod.fst
          else cache.map Prod.fst ++ [k] := by
  intro cache
  induction cache with
  | nil => simp [cacheSet]
  | cons e rest ih =>
    simp only [cacheSet]
    by_cases h : e.1 = k
    · simp [h]
    · rw [if_neg h]
      by_cases hk : k ∈ rest.map Prod.fst
      · simp [ih, hk, Ne.symm h]
      · simp [ih, hk, Ne.symm h]

theorem cacheSet_keys_nodup (k : String) (v : FileBuf) (cache : FileCache)
    (h : (cache.map Prod.fst).Nodup) :
    ((cacheSet k v cache).map Prod.fst).Nodup := by
  rw [cacheSet_keys]
  split
  · exact h
  · rename_i hk
    simp only [List.nodup_append, List.nodup_singleton, true_and, h]
    intro a ha hak
    simp only [List.mem_singleton] at hak
    exact hk (hak ▸ ha)

theorem cacheSet_keys_sub (k : String) (v : FileBuf) (cache : FileCache) :
    (cacheSet k v cache).map Prod.fst ⊆ k :: cache.map Prod.fst := by
  rw [cacheSet_keys]
  split
  · exact fun x hx => List.mem_cons_of_mem _ hx
  · intro x hx
    rcases List.mem_append.mp hx with hx | hx
    · exact List.mem_cons_of_mem _ hx
    · simp only [List.mem_singleton] at hx
      exact hx ▸ List.mem_cons_self _ _

/-- One loop step either leaves the `fileCache` untouched or updates the entry
of the processed change's own file path. -/
theorem applyStep_cache_cases (ap : String → String → Nat → Option String) (fuzz : Nat)
    (fs : String → String) (dr : Bool) (change : Change) (cache : FileCache) :
    (applyStep ap fuzz fs dr change cache).2 = cache
    ∨ ∃ b, (applyStep ap fuzz fs dr change cache).2 = cacheSet change.filePath b cache := by
  simp only [applyStep]
  split
  · exact Or.inl rfl
  · split
    · exact Or.inl rfl
    · cases hap : ap (bufCurrent fs cache change.filePath) change.patch fuzz with
      | none =>
        simp only [hap]
        split
        · exact Or.inr ⟨_, rfl⟩
        · exact Or.inl rfl
      | some patched =>
        simp only [hap]
        exact Or.inr ⟨_, rfl⟩

/-- Invariant of the batch loop: the cache keys stay duplicate-free and are
drawn from the processed changes' file paths and the incoming cache keys. -/
theorem applyLoop_keys (ap : String → String → Nat → Option String) (fuzz : Nat)
    (fs : String → String) (dr : Bool) :
    ∀ (chs : List Change) (cache : FileCache), (cache.map Prod.fst).Nodup →
      ((applyLoop ap fuzz fs dr chs cache).2.map Prod.fst).Nodup
      ∧ (applyLoop ap fuzz fs dr chs cache).2.map Prod.fst
          ⊆ chs.map Change.filePath ++ cache.map Prod.fst := by
  intro chs
  induction chs with
  | nil => intro cache h; exact ⟨h, by simp [applyLoop]⟩
  | cons c rest ih =>
    intro cache h
    have hloop : (applyLoop ap fuzz fs dr (c :: rest) cache).2
        = (applyLoop ap fuzz fs dr rest (applyStep ap fuzz fs dr c cache).2).2 := rfl
    rw [hloop]
    rcases applyStep_cache_cases ap fuzz fs dr c cache with hs | ⟨b, hs⟩
    · rw [hs]
      obtain ⟨h1, h2⟩ := ih cache h
      refine ⟨h1, fun x hx => ?_⟩
      have := h2 hx
      simp only [List.map_cons, List.cons_append, List.mem_cons, List.mem_append] at this ⊢
      tauto
    · rw [hs]
      have hnd := cacheSet_keys_nodup c.filePath b cache h
      obtain ⟨h1, h2⟩ := ih (cacheSet c.filePath b cache) hnd
      refine ⟨h1, fun x hx => ?_⟩
      have hx2 := h2 hx
      simp only [List.mem_append] at hx2
      simp only [List.map_cons, List.cons_append, List.mem_cons, List.mem_append]
      rcases hx2 with hx2 | hx2
      · tauto
      · have hx3 := cacheSet_keys_sub c.filePath b cache hx2
        simp only [List.mem_cons] at hx3
        tauto

/-- C3: in a non-dry batch of `N` changes over `K` distinct file paths, the
write phase (which runs only after every change has been processed) writes
each touched file exactly once: the write list has duplicate-free paths, all
drawn from the batch's file paths, so at most `K` writes occur — never one
write per change and never a write mid-batch. -/
theorem applyChanges_write_once (ap : String → String → Nat → Option String)
    (fuzz : Nat) (fs : String → String) (changes : List Change) :
    ((applyChanges ap fuzz fs changes false).2.map Prod.fst).Nodup
    ∧ (applyChanges ap fuzz fs changes false).2.map Prod.fst ⊆ changes.map Change.filePath
    ∧ (applyChanges ap fuzz fs changes false).2.length
        ≤ (changes.map Change.filePath).dedup.length := by
  classical
  have h := applyLoop_keys ap fuzz fs false changes [] (by simp)
  have keyeq : (applyChanges ap fuzz fs changes false).2.map Prod.fst
      = (applyLoop ap fuzz fs false changes []).2.map Prod.fst := by
    simp [applyChanges, List.map_map, Function.comp]
  have hsub : (applyChanges ap fuzz fs changes false).2.map Prod.fst
      ⊆ changes.map Change.filePath := by
    rw [keyeq]
    intro x hx
    have := h.2 hx
    simpa using this
  have hnd : ((applyChanges ap fuzz fs changes false).2.map Prod.fst).Nodup := by
    rw [keyeq]; exact h.1
  refine ⟨hnd, hsub, ?_⟩
  have hlen : (applyChanges ap fuzz fs changes false).2.length
      = ((applyChanges ap fuzz fs changes false).2.map Prod.fst).length := by
    simp
  rw [hlen]
  set keys := (applyChanges ap fuzz fs changes false).2.map Prod.fst with hkeys
  calc keys.length = keys.toFinset.card := (List.toFinset_card_of_nodup hnd).symm
    _ ≤ (changes.map Change.filePath).toFinset.card := by
        refine Finset.card_le_card fun x hx => ?_
        simp only [List.mem_toFinset] at hx ⊢
        exact hsub hx
    _ = (changes.map Change.filePath).dedup.length := List.card_toFinset _

/-- Witness for C3: two changes to the same file produce at most one write to
it. -/
theorem applyChanges_write_once_witness :
    (((applyChanges (fun _ _ _ => some "v") 5 fs0 [chFail, chFail] false).2.map
        Prod.fst).Nodup)
    ∧ (applyChanges (fun _ _ _ => some "v") 5 fs0 [chFail, chFail] false).2.length
        ≤ ([chFail, chFail].map Change.filePath).dedup.length := by
  have h := applyChanges_write_once (fun _ _ _ => some "v") 5 fs0 [chFail, chFail]
  exact ⟨h.1, h.2.2⟩

/-! ### C5: the verify-retry loop is bounded -/

theorem verifyLoop_le (planAt : Nat → List Change) (sel : Option (List String)) :
    ∀ (fuel idx : Nat) (acc : List (List Change)),
      (verifyLoop planAt sel fuel idx acc).1.length ≤ acc.length + fuel := by
  intro fuel
  induction fuel with
  | zero => intro idx acc; simp [verifyLoop]
  | succ n ih =>
    intro idx acc
    simp only [verifyLoop]
    split
    · simp only []; omega
    · have := ih (idx + 1) (acc ++ [filterSelected sel (planAt idx)])
      simp only [List.length_append, List.length_singleton] at this
      omega

/-- C5: the verify phase of `/api/apply` always terminates within its fixed
budget: it is a total function issuing at most `maxAttempts = 2` retry apply
sub-batches, and it stops immediately (zero retry sub-batches) when the
filtered remaining change list of the first verify plan is empty. -/
theorem apiApplyVerify_bounded (planAt : Nat → List Change) (sel : Option (List String)) :
    (apiApplyVerify planAt sel).1.length ≤ maxAttempts
    ∧ maxAttempts = 2
    ∧ (filterSelected sel (planAt 0) = [] →
        apiApplyVerify planAt sel = ([], (filterSelected sel (planAt 1)).map Change.id)) := by
  refine ⟨?_, rfl, ?_⟩
  · have := verifyLoop_le planAt sel maxAttempts 0 []
    simpa [apiApplyVerify] using this
  · intro h
    simp [apiApplyVerify, maxAttempts, verifyLoop, h, List.isEmpty_iff]

/-- Witness for C5: with a planner that keeps returning a non-empty filtered
list the loop still stops after exactly 2 retry sub-batches, and with an empty
first plan it issues none. -/
theorem apiApplyVerify_bounded_witness :
    (apiApplyVerify (fun _ => [chFail]) none).1.length ≤ maxAttempts
    ∧ (filterSelected none ((fun _ => ([] : List Change)) 0) = []
        ∧ apiApplyVerify (fun _ => ([] : List Change)) none = ([], [])) := by
  refine ⟨(apiApplyVerify_bounded (fun _ => [chFail]) none).1, rfl, ?_⟩
  have h := (apiApplyVerify_bounded (fun _ => ([] : List Change)) none).2.2 rfl
  simpa [filterSelected] using h

/-! ### C10: the planner never runs px rules for Flutter -/

/-- C10: for options with `appPlatform = "flutter"` whose parts include `px`,
the plan contains no change from the px rule module: the result is unchanged
when the px module's output is replaced by `[]`, and it equals exactly the
flutter base and flutter push contributions. -/
theorem planIntegration_flutter_ignores_px (options : IntegrationOptions) (o : PlanOracles)
    (hplat : options.appPlatform = some "flutter")
    (_hpx : options.parts.contains "px" = true) :
    planIntegration options o = planIntegration options { o with px := [] }
    ∧ planIntegration options o
      = (if options.parts.contains "base" then o.flutterBase else [])
        ++ (if options.parts.contains "push" then o.flutterPush else []) := by
  constructor <;> simp [planIntegration, hplat]

/-- Witness for C10 at a concrete flutter request selecting px. -/
theorem planIntegration_flutter_ignores_px_witness :
    ((⟨"", ["base", "px"], some "flutter"⟩ : IntegrationOptions).parts.contains "px" = true)
    ∧ planIntegration ⟨"", ["base", "px"], some "flutter"⟩ ⟨[], [chNext], [], [], [chFail]⟩
        = planIntegration ⟨"", ["base", "px"], some "flutter"⟩ ⟨[], [chNext], [], [], []⟩ := by
  exact ⟨by decide,
    (planIntegration_flutter_ignores_px ⟨"", ["base", "px"], some "flutter"⟩
      ⟨[], [chNext], [], [], [chFail]⟩ rfl (by decide)).1⟩

/-! ### C6: mutator idempotence -/

set_option maxRecDepth 1000000 in
/-- Counterexample to C6 as stated: `injectJavaInit` is not idempotent for
every source text.  On this one-line class (whose `onCreate` already contains
an `initializeSdk` call reached by the `/Smartech\.getInstance\(.*\)/`
detection but placed after `super.onCreate()`), the first application inserts
the debug/track/plugin lines after `super.onCreate();`, and the second
application inserts them again. -/
theorem injectJavaInit_not_idempotent_cex :
    injectJavaInit (injectJavaInit "class A extends B \x7b void onCreate() \x7b Smartech.getInstance(q); super.onCreate(); r().initializeSdk(x); \x7d \x7d".data)
      ≠ injectJavaInit "class A extends B \x7b void onCreate() \x7b Smartech.getInstance(q); super.onCreate(); r().initializeSdk(x); \x7d \x7d".data := by
  decide

set_option maxRecDepth 1000000 in
/-- **C6** (amended).  Of the three named mutators only the
`SMARTECH_BASE_SDK_VERSION` step of `ensureGradleProperty` is idempotent on
every source text, and only for versions with no newline, no `$` and a
non-whitespace character: its replacement is a JS *string* subject to
`$`-substitution, and at version `$&` the step duplicates the matched line
instead of fixing it (second conjunct).  `injectJavaInit` re-applied is the
identity only conditionally: when its import pass and its missing-init-line
detection are already satisfied on its output.  The `SMT_APP_ID` step of
`ensureManifestMetaData` is never idempotent on the manifests its insert
branch handles (no existing `SMT_APP_ID`, an `<application ...>` tag): the
second application edits the output again, growing the template's
indentation. -/
theorem mutator_idempotence :
    (∀ v, (∀ c ∈ v, (c != '\n') = true) → (∀ c ∈ v, (c != '$') = true) →
      (∃ c ∈ v, isWsChar c = false) →
      ∀ s, gradleVersionStep v (gradleVersionStep v s) = gradleVersionStep v s)
    ∧ gradleVersionStep "$&".data
        (gradleVersionStep "$&".data "SMARTECH_BASE_SDK_VERSION=1\n".data)
      ≠ gradleVersionStep "$&".data "SMARTECH_BASE_SDK_VERSION=1\n".data
    ∧ (∀ s, ensureJavaImports (injectJavaInit s) javaInitImports = injectJavaInit s →
        getMissingJavaInitLines (injectJavaInit s) = [] →
        injectJavaInit (injectJavaInit s) = injectJavaInit s)
    ∧ (∀ appId s, (∀ c ∈ appId, (c != '\"') = true) →
        (∀ c ∈ appId, (c != '$') = true) →
        textIncludes "SMT_APP_ID".data s = false → rtest applicationTagRe s = true →
        ensureManifestMetaDataText appId (ensureManifestMetaDataText appId s)
          ≠ ensureManifestMetaDataText appId s) :=
  ⟨fun v h1 h2 h3 s => gradleVersionStep_idem v h1 h2 h3 s,
   by decide,
   fun s h1 h2 => injectJavaInit_fixed (injectJavaInit s) h1 h2,
   fun appId s h1 h2 h3 h4 =>
     ensureManifestMetaDataText_insert_not_idempotent appId s h1 h2 h3 h4⟩

set_option maxRecDepth 1000000 in
/-- Witness for C6 at concrete inputs: a gradle.properties without the key, a
fully integrated Java source, and a minimal manifest. -/
theorem mutator_idempotence_witness :
    gradleVersionStep "3.7.6".data
        (gradleVersionStep "3.7.6".data "org.gradle.jvmargs=-Xmx2g\n".data)
      = gradleVersionStep "3.7.6".data "org.gradle.jvmargs=-Xmx2g\n".data
    ∧ injectJavaInit (injectJavaInit "package com.app;\nimport java.lang.ref.WeakReference;\nimport com.netcore.android.Smartech;\nimport com.smartechbasereactnative.SmartechBasePlugin;\nimport android.content.Context;\nSmartech.getInstance(x).initializeSdk(y); Smartech.getInstance(x).setDebugLevel(9); Smartech.getInstance(x).trackAppInstallUpdateBySmartech(); smartechBasePlugin.init(z);".data)
      = injectJavaInit "package com.app;\nimport java.lang.ref.WeakReference;\nimport com.netcore.android.Smartech;\nimport com.smartechbasereactnative.SmartechBasePlugin;\nimport android.content.Context;\nSmartech.getInstance(x).initializeSdk(y); Smartech.getInstance(x).setDebugLevel(9); Smartech.getInstance(x).trackAppInstallUpdateBySmartech(); smartechBasePlugin.init(z);".data
    ∧ ensureManifestMetaDataText "A".data
        (ensureManifestMetaDataText "A".data "<application>".data)
      ≠ ensureManifestMetaDataText "A".data "<application>".data :=
  ⟨mutator_idempotence.1 "3.7.6".data (by decide) (by decide) (by decide)
      "org.gradle.jvmargs=-Xmx2g\n".data,
   mutator_idempotence.2.2.1 "package com.app;\nimport java.lang.ref.WeakReference;\nimport com.netcore.android.Smartech;\nimport com.smartechbasereactnative.SmartechBasePlugin;\nimport android.content.Context;\nSmartech.getInstance(x).initializeSdk(y); Smartech.getInstance(x).setDebugLevel(9); Smartech.getInstance(x).trackAppInstallUpdateBySmartech(); smartechBasePlugin.init(z);".data
      (by decide) (by decide),
   mutator_idempotence.2.2.2 "A".data "<application>".data
      (by decide) (by decide) (by decide) (by decide)⟩

/-! ### C7: the gradle.properties version update -/

set_option maxRecDepth 100000 in
/-- Counterexample to C7 as stated: on a `gradle.properties` already
containing `SMARTECH_BASE_SDK_VERSION=3.7.0`, the produced `Change` has kind
`"insert"`, not `update` (this rule's `buildChange` call passes
`kind: "insert"` even when it rewrites an existing line). -/
theorem ensureGradleProperty_kind_cex :
    (ensureGradleProperty (fun _ _ _ => "") "android/gradle.properties" true
        "SMARTECH_BASE_SDK_VERSION=3.7.0\n".data "3.7.6".data).map Change.kind
      = some "insert" := by
  decide

/-- Witness for C7 at a concrete two-line gradle.properties. -/
theorem ensureGradleProperty_updates_only_version_witness :
    ensureGradleProperty (fun _ _ _ => "") "android/gradle.properties" true
        ("a=1\n".data ++ ("SMARTECH_BASE_SDK_VERSION=3.7.0\n".data ++ "b=2\n".data))
        "3.7.6".data
      = some
        { id := "android-gradle-properties-smartech",
          title := "Add Smartech SDK version to gradle.properties",
          filePath := "android/gradle.properties",
          kind := "insert",
          patch := "",
          originalContent := some (String.mk ("a=1\n".data
            ++ ("SMARTECH_BASE_SDK_VERSION=3.7.0\n".data ++ "b=2\n".data))),
          newContent := some (String.mk ("a=1\n".data
            ++ ("SMARTECH_BASE_SDK_VERSION=3.7.6\n".data ++ "b=2\n".data))),
          summary := "Add SMARTECH_BASE_SDK_VERSION to gradle.properties.",
          confidence := 2/5,
          module := some "base",
          manualSnippet := none } :=
  ensureGradleProperty_updates_only_version (fun _ _ _ => "") "android/gradle.properties"
    "a=1\n".data "b=2\n".data (by decide)

/-! ### C8: the advisory changes of the base rule module -/

/-- Counterexample to C8 as stated: the missing-java-root advisory of
`runBaseRules` carries no `manualSnippet` at all. -/
theorem noJavaRoot_no_manualSnippet_cex :
    (noJavaRootChange "android/app/src/main/java").manualSnippet = none := rfl

/-- **C8** (amended).  Every advisory `Change` of the base rule module has an
empty `patch` and low confidence (0.2 or 0.3), but only the missing-launcher-
activity advisory carries a `manualSnippet`: the missing-java-root advisory
and the three backup-attribute warnings have `manualSnippet` absent. -/
theorem advisory_changes_shape :
    (∀ p : String, (noJavaRootChange p).patch = ""
      ∧ (noJavaRootChange p).confidence = 1/5
      ∧ (noJavaRootChange p).manualSnippet = none)
    ∧ (∀ (mp : String) (fe : Bool) (content : Text),
        ∀ w ∈ detectBackupWarnings mp fe content,
          w.patch = "" ∧ w.confidence = 3/10 ∧ w.manualSnippet = none)
    ∧ (∀ p : String, (launcherActivityMissingChange p).patch = ""
        ∧ (launcherActivityMissingChange p).confidence = 1/5
        ∧ (launcherActivityMissingChange p).manualSnippet
            = some BASE_DEEPLINK_MANUAL_SNIPPET) := by
  refine ⟨fun p => ⟨rfl, rfl, rfl⟩, ?_, fun p => ⟨rfl, rfl, rfl⟩⟩
  intro mp fe content w hw
  unfold detectBackupWarnings at hw
  split at hw
  · simp at hw
  · rw [List.mem_append] at hw
    rcases hw with hw12 | hw3
    · rw [List.mem_append] at hw12
      rcases hw12 with hw1 | hw2
      · split at hw1
        · simp at hw1
          subst hw1
          exact ⟨rfl, rfl, rfl⟩
        · simp at hw1
      · split at hw2
        · simp only [ne_eq] at hw2
          split at hw2
          · simp at hw2
            subst hw2
            exact ⟨rfl, rfl, rfl⟩
          · simp at hw2
        · simp at hw2
    · split at hw3
      · simp only [ne_eq] at hw3
        split at hw3
        · simp at hw3
          subst hw3
          exact ⟨rfl, rfl, rfl⟩
        · simp at hw3
      · simp at hw3

set_option maxRecDepth 100000 in
/-- Witness for C8 at a concrete manifest that sets
`android:allowBackup="false"`. -/
theorem advisory_changes_shape_witness :
    ({ id := "android-manifest-allowbackup-warning",
       title := "allowBackup is false in manifest",
       filePath := "AndroidManifest.xml", kind := "insert", patch := "",
       summary := "Manifest sets android:allowBackup=\"false\". Base integration will flip it to true for Smartech reinstall tracking.",
       confidence := 3/10, module := some "base",
       manualSnippet := none } : Change).patch = ""
    ∧ ({ id := "android-manifest-allowbackup-warning",
         title := "allowBackup is false in manifest",
         filePath := "AndroidManifest.xml", kind := "insert", patch := "",
         summary := "Manifest sets android:allowBackup=\"false\". Base integration will flip it to true for Smartech reinstall tracking.",
         confidence := 3/10, module := some "base",
         manualSnippet := none } : Change).confidence = 3/10
    ∧ ({ id := "android-manifest-allowbackup-warning",
         title := "allowBackup is false in manifest",
         filePath := "AndroidManifest.xml", kind := "insert", patch := "",
         summary := "Manifest sets android:allowBackup=\"false\". Base integration will flip it to true for Smartech reinstall tracking.",
         confidence := 3/10, module := some "base",
         manualSnippet := none } : Change).manualSnippet = none :=
  advisory_changes_shape.2.1 "AndroidManifest.xml" true
    "<application android:allowBackup=\"false\">".data
    { id := "android-manifest-allowbackup-warning",
      title := "allowBackup is false in manifest",
      filePath := "AndroidManifest.xml", kind := "insert", patch := "",
      summary := "Manifest sets android:allowBackup=\"false\". Base integration will flip it to true for Smartech reinstall tracking.",
      confidence := 3/10, module := some "base",
      manualSnippet := none }
    (by
      have h : detectBackupWarnings "AndroidManifest.xml" true
            "<application android:allowBackup=\"false\">".data
          = [{ id := "android-manifest-allowbackup-warning",
               title := "allowBackup is false in manifest",
               filePath := "AndroidManifest.xml", kind := "insert", patch := "",
               summary := "Manifest sets android:allowBackup=\"false\". Base integration will flip it to true for Smartech reinstall tracking.",
               confidence := 3/10, module := some "base",
               manualSnippet := none }] := rfl
      rw [h]
      exact List.mem_singleton_self _)

end Smartech
